import Mathlib

/- Verification development for the dsvreader repository (src/dsvreader.go).

   The Go reader is embedded shallowly as a pure state machine.  The underlying
   io.Reader is modelled as the list of byte chunks its successive Read calls
   deliver; after the last chunk every further Read reports (0, io.EOF), which is
   the standard behaviour of stream readers.  Bytes are Nat (0..255 in practice),
   byte slices are lists, Go nil slices are Option.none where the nil test is
   significant.  Errors built with fmt.Errorf are represented structurally by the
   Err and Cause types, keeping exactly the data the format verbs interpolate. -/

abbrev Bytes := List Nat

/-- Models bytes.IndexByte: index of the first occurrence of c in s
    (Go returns -1 when absent, modelled as none). -/
def indexByte (s : Bytes) (c : Nat) : Option Nat :=
  match s with
  | [] => none
  | x :: xs => if x = c then some 0 else (indexByte xs c).map (fun i => i + 1)

/-- Structured causes of column-level failures: the two errors produced inside
    nextCol, the strconv error kinds, and the date/datetime parse errors. -/
inductive Cause where
  | missingNext
  | noMoreCols
  | invalidSyntax
  | outOfRange
  | tooShortDate
  | invalidDateFormat
  | invalidYear
  | invalidMonth
  | invalidDay
  | tooShortDatetime
  | invalidTimeFormat
  | invalidHour
  | invalidMinute
  | invalidSecond
deriving DecidableEq, Repr

/-- The reader-level sticky errors, keeping the data interpolated by fmt.Errorf. -/
inductive Err where
  | eof
  | truncated (row : Nat) (rowBytes : Bytes)
  | unreadCols (row : Nat) (rowBuf : Bytes) (rest : Bytes)
  | colError (msg : String) (row : Nat) (col : Nat) (rowBuf : Bytes) (cause : Cause)
deriving DecidableEq, Repr

/-- The Reader struct of src/dsvreader.go.  `chunks` stands for the io.Reader
    field r (the reads it has yet to deliver); rBuf/rb collapse to rb since the
    model has no aliasing; rErr : Bool records whether io.EOF has been observed
    (the modelled stream fails only with io.EOF). -/
structure Reader where
  chunks : List Bytes
  rb : Bytes
  rErr : Bool
  col : Nat
  row : Nat
  rowBuf : Bytes
  b : Option Bytes
  scratch : Bytes
  err : Option Err
  sep : Nat
  needUnescape : Bool
deriving DecidableEq, Repr

/-- Reader.Reset: rebind to a new stream, clear all transient state, keep sep. -/
def resetReader (tr : Reader) (chunks : List Bytes) : Reader :=
  { tr with chunks := chunks, rb := [], rErr := false, col := 0, row := 0,
            rowBuf := [], b := none, scratch := [], err := none,
            needUnescape := false }

/-- NewCustom (NewCSV/NewTSV/NewPSV fix sep to 44/9/124): a fresh reader. -/
def newCustom (sep : Nat) (chunks : List Bytes) : Reader :=
  resetReader
    { chunks := [], rb := [], rErr := false, col := 0, row := 0, rowBuf := [],
      b := none, scratch := [], err := none, sep := sep, needUnescape := false }
    chunks

/-- Reader.Error: the sticky error, with io.EOF reported as no error. -/
def errorAcc (tr : Reader) : Option Err :=
  match tr.err with
  | some Err.eof => none
  | e => e

/-- Reader.ResetError. -/
def resetErrorR (tr : Reader) : Reader := { tr with err := none }

/-- Reader.HasCols: len(tr.rowBuf) > 0 && tr.b != nil. -/
def hasCols (tr : Reader) : Bool := !tr.rowBuf.isEmpty && tr.b.isSome

/-- The terminal error Next builds when the read loop hits io.EOF: a truncation
    error when partial-row bytes are staged in scratch, io.EOF itself otherwise. -/
def eofErr (row : Nat) (s : Bytes) : Err :=
  if s = [] then Err.eof else Err.truncated row s

/-- The for-loop of Reader.Next (src/dsvreader.go lines 128-166).  Each
    iteration scans rb for a newline; on success the row is scratch ++ the bytes
    before it.  Otherwise rb is appended to scratch and the buffer refilled: a
    fresh chunk (recomputing needUnescape for the fill), or (0, io.EOF) once the
    stream is exhausted, after which the loop terminates with eofErr. -/
def rowLoop (tr : Reader) : Bool × Reader :=
  match indexByte tr.rb 10 with
  | some n =>
    let line := tr.scratch ++ tr.rb.take n
    (true, { tr with rb := tr.rb.drop (n + 1), scratch := [],
                     rowBuf := line, b := some line })
  | none =>
    if tr.rErr then
      (false, { tr with scratch := tr.scratch ++ tr.rb, rb := [],
                        err := some (eofErr tr.row (tr.scratch ++ tr.rb)) })
    else
      match h : tr.chunks with
      | [] =>
        (false, { tr with scratch := tr.scratch ++ tr.rb, rb := [], rErr := true,
                          needUnescape := false,
                          err := some (eofErr tr.row (tr.scratch ++ tr.rb)) })
      | c :: cs =>
        rowLoop { tr with scratch := tr.scratch ++ tr.rb, rb := c, chunks := cs,
                          needUnescape := (indexByte c 92).isSome }
termination_by tr.chunks.length
decreasing_by simp [h]

/-- Reader.Next: sticky-error check, unread-columns misuse check, then the row
    splitting loop on the state with row incremented, col reset, rowBuf cleared. -/
def next (tr : Reader) : Bool × Reader :=
  if tr.err.isSome then (false, tr)
  else if hasCols tr then
    (false, { tr with err := some (Err.unreadCols tr.row tr.rowBuf (tr.b.getD [])) })
  else
    rowLoop { tr with row := tr.row + 1, col := 0, rowBuf := [] }

/-- Reader.nextCol: the raw column primitive.  Note the source returns on the
    missing-Next check before tr.col++. -/
def nextCol (tr : Reader) : Except Cause Bytes × Reader :=
  if tr.row = 0 then (Except.error Cause.missingNext, tr)
  else
    let tr1 := { tr with col := tr.col + 1 }
    match tr1.b with
    | none => (Except.error Cause.noMoreCols, tr1)
    | some cur =>
      match indexByte cur tr1.sep with
      | none => (Except.ok cur, { tr1 with b := none })
      | some n => (Except.ok (cur.take n), { tr1 with b := some (cur.drop (n + 1)) })

/-- Reader.setColError: wrap a cause with msg, row, col and the raw row bytes. -/
def setColError (tr : Reader) (msg : String) (cause : Cause) : Reader :=
  { tr with err := some (Err.colError msg tr.row tr.col tr.rowBuf cause) }

/-- Reader.SkipCol. -/
def skipCol (tr : Reader) : Reader :=
  if tr.err.isSome then tr
  else
    match nextCol tr with
    | (Except.error e, tr1) => setColError tr1 "cannot skip column" e
    | (Except.ok _, tr1) => tr1

/-- The switch of the in-place unescaping loop in Reader.Bytes: the byte written
    over the escape marker for each byte following it. -/
def unescapeByte (c : Nat) : Nat :=
  if c = 98 then 8
  else if c = 102 then 12
  else if c = 114 then 13
  else if c = 110 then 10
  else if c = 116 then 9
  else if c = 48 then 0
  else if c = 39 then 39
  else if c = 92 then 92
  else c

/-- The unescape loop of Reader.Bytes (lines 205-240): d ends at an escape
    marker; decode the next byte over it, then copy up to and including the next
    marker and repeat, or copy the rest and stop. -/
def unescapeLoop (d b : Bytes) : Bytes :=
  match b with
  | [] => d
  | c :: rest =>
    let d1 := d.dropLast ++ [unescapeByte c]
    match indexByte rest 92 with
    | none => d1 ++ rest
    | some n => unescapeLoop (d1 ++ rest.take (n + 1)) (rest.drop (n + 1))
termination_by b.length
decreasing_by simp; omega

/-- Reader.Bytes: sticky-error check, nextCol, then the fast path (no unescaping
    when the last fill had no marker, or the column has none) or the slow path. -/
def bytes (tr : Reader) : Option Bytes × Reader :=
  if tr.err.isSome then (none, tr)
  else
    match nextCol tr with
    | (Except.error e, tr1) => (none, setColError tr1 "cannot read `bytes`" e)
    | (Except.ok bcol, tr1) =>
      if !tr1.needUnescape then (some bcol, tr1)
      else
        match indexByte bcol 92 with
        | none => (some bcol, tr1)
        | some n => (some (unescapeLoop (bcol.take (n + 1)) (bcol.drop (n + 1))), tr1)

/-- Reader.String: string(tr.Bytes()); string(nil) is the empty string. -/
def stringCol (tr : Reader) : Bytes × Reader :=
  match bytes tr with
  | (none, tr1) => ([], tr1)
  | (some bcol, tr1) => (bcol, tr1)

/-- Sign prefix handling of strconv.ParseInt: '+' / '-' / none. -/
def splitSign (s : Bytes) : Bool × Bytes :=
  match s with
  | 43 :: rest => (false, rest)
  | 45 :: rest => (true, rest)
  | _ => (false, s)

def decDigits (s : Bytes) : Bool := s.all (fun c => decide (48 ≤ c ∧ c ≤ 57))

def decValue (s : Bytes) : Nat := s.foldl (fun a c => a * 10 + (c - 48)) 0

/-- Models strconv.ParseInt(s, 10, bits): optional sign, non-empty decimal
    digits, exact range check for the requested width. -/
def goParseInt (s : Bytes) (bits : Nat) : Except Cause Int :=
  let p := splitSign s
  if p.2.isEmpty || !decDigits p.2 then Except.error Cause.invalidSyntax
  else
    let v : Int := if p.1 then -(Int.ofNat (decValue p.2)) else Int.ofNat (decValue p.2)
    if v < -((2 : Int) ^ (bits - 1)) ∨ (2 : Int) ^ (bits - 1) - 1 < v then
      Except.error Cause.outOfRange
    else Except.ok v

/-- Models strconv.ParseUint(s, 10, bits): no sign allowed, exact range check. -/
def goParseUint (s : Bytes) (bits : Nat) : Except Cause Nat :=
  if s.isEmpty || !decDigits s then Except.error Cause.invalidSyntax
  else if (2 : Nat) ^ bits - 1 < decValue s then Except.error Cause.outOfRange
  else Except.ok (decValue s)

/-- strconv.Atoi on a 64-bit platform: ParseInt(s, 10, 64). -/
def goAtoi (s : Bytes) : Except Cause Int := goParseInt s 64

/-- Reader.Int. -/
def intR (tr : Reader) : Int × Reader :=
  if tr.err.isSome then (0, tr)
  else
    match nextCol tr with
    | (Except.error e, tr1) => (0, setColError tr1 "cannot read `int`" e)
    | (Except.ok bcol, tr1) =>
      match goAtoi bcol with
      | Except.error e => (0, setColError tr1 "cannot parse `int`" e)
      | Except.ok n => (n, tr1)

/-- Reader.Uint: fast path via Atoi for non-negative results, slow path via
    ParseUint(s, 10, strconv.IntSize). -/
def uintR (tr : Reader) : Nat × Reader :=
  if tr.err.isSome then (0, tr)
  else
    match nextCol tr with
    | (Except.error e, tr1) => (0, setColError tr1 "cannot read `uint`" e)
    | (Except.ok bcol, tr1) =>
      match goAtoi bcol with
      | Except.ok n =>
        if 0 ≤ n then (n.toNat, tr1)
        else
          match goParseUint bcol 64 with
          | Except.error e => (0, setColError tr1 "cannot parse `uint`" e)
          | Except.ok nu => (nu, tr1)
      | Except.error _ =>
        match goParseUint bcol 64 with
        | Except.error e => (0, setColError tr1 "cannot parse `uint`" e)
        | Except.ok nu => (nu, tr1)

/-- Reader.Int32: fast path via Atoi with an int32 range test, slow path via
    ParseInt(s, 10, 32). -/
def int32R (tr : Reader) : Int × Reader :=
  if tr.err.isSome then (0, tr)
  else
    match nextCol tr with
    | (Except.error e, tr1) => (0, setColError tr1 "cannot read `int32`" e)
    | (Except.ok bcol, tr1) =>
      match goAtoi bcol with
      | Except.ok n =>
        if -((2 : Int) ^ 31) ≤ n ∧ n ≤ (2 : Int) ^ 31 - 1 then (n, tr1)
        else
          match goParseInt bcol 32 with
          | Except.error e => (0, setColError tr1 "cannot parse `int32`" e)
          | Except.ok n32 => (n32, tr1)
      | Except.error _ =>
        match goParseInt bcol 32 with
        | Except.error e => (0, setColError tr1 "cannot parse `int32`" e)
        | Except.ok n32 => (n32, tr1)

/-- Reader.Uint32: fast path via Atoi, slow path via ParseUint(s, 10, 32). -/
def uint32R (tr : Reader) : Nat × Reader :=
  if tr.err.isSome then (0, tr)
  else
    match nextCol tr with
    | (Except.error e, tr1) => (0, setColError tr1 "cannot read `uint32`" e)
    | (Except.ok bcol, tr1) =>
      match goAtoi bcol with
      | Except.ok n =>
        if 0 ≤ n ∧ n ≤ (2 : Int) ^ 32 - 1 then (n.toNat, tr1)
        else
          match goParseUint bcol 32 with
          | Except.error e => (0, setColError tr1 "cannot parse `uint32`" e)
          | Except.ok n32 => (n32, tr1)
      | Except.error _ =>
        match goParseUint bcol 32 with
        | Except.error e => (0, setColError tr1 "cannot parse `uint32`" e)
        | Except.ok n32 => (n32, tr1)

/-- Reader.Int16: Atoi, then an explicit int16 range check. -/
def int16R (tr : Reader) : Int × Reader :=
  if tr.err.isSome then (0, tr)
  else
    match nextCol tr with
    | (Except.error e, tr1) => (0, setColError tr1 "cannot read `int16`" e)
    | (Except.ok bcol, tr1) =>
      match goAtoi bcol with
      | Except.error e => (0, setColError tr1 "cannot parse `int16`" e)
      | Except.ok n =>
        if n < -((2 : Int) ^ 15) ∨ (2 : Int) ^ 15 - 1 < n then
          (0, setColError tr1 "cannot parse `int16`" Cause.outOfRange)
        else (n, tr1)

/-- Reader.Uint16: Atoi, then explicit negativity and range checks with the
    causes the source spells out. -/
def uint16R (tr : Reader) : Nat × Reader :=
  if tr.err.isSome then (0, tr)
  else
    match nextCol tr with
    | (Except.error e, tr1) => (0, setColError tr1 "cannot read `uint16`" e)
    | (Except.ok bcol, tr1) =>
      match goAtoi bcol with
      | Except.error e => (0, setColError tr1 "cannot parse `uint16`" e)
      | Except.ok n =>
        if n < 0 then (0, setColError tr1 "cannot parse `uint16`" Cause.invalidSyntax)
        else if (2 : Int) ^ 16 - 1 < n then
          (0, setColError tr1 "cannot parse `uint16`" Cause.outOfRange)
        else (n.toNat, tr1)

/-- Reader.Int8: Atoi, then an explicit int8 range check. -/
def int8R (tr : Reader) : Int × Reader :=
  if tr.err.isSome then (0, tr)
  else
    match nextCol tr with
    | (Except.error e, tr1) => (0, setColError tr1 "cannot read `int8`" e)
    | (Except.ok bcol, tr1) =>
      match goAtoi bcol with
      | Except.error e => (0, setColError tr1 "cannot parse `int8`" e)
      | Except.ok n =>
        if n < -((2 : Int) ^ 7) ∨ (2 : Int) ^ 7 - 1 < n then
          (0, setColError tr1 "cannot parse `int8`" Cause.outOfRange)
        else (n, tr1)

/-- Reader.Uint8: Atoi, then explicit negativity ("invalid syntax") and
    range ("out of range") checks. -/
def uint8R (tr : Reader) : Nat × Reader :=
  if tr.err.isSome then (0, tr)
  else
    match nextCol tr with
    | (Except.error e, tr1) => (0, setColError tr1 "cannot read `uint8`" e)
    | (Except.ok bcol, tr1) =>
      match goAtoi bcol with
      | Except.error e => (0, setColError tr1 "cannot parse `uint8`" e)
      | Except.ok n =>
        if n < 0 then (0, setColError tr1 "cannot parse `uint8`" Cause.invalidSyntax)
        else if (2 : Int) ^ 8 - 1 < n then
          (0, setColError tr1 "cannot parse `uint8`" Cause.outOfRange)
        else (n.toNat, tr1)

/-- Reader.Int64: fast path via Atoi (the int64 bound test in the source is
    vacuously true on a 64-bit platform, kept literally), slow path ParseInt 64. -/
def int64R (tr : Reader) : Int × Reader :=
  if tr.err.isSome then (0, tr)
  else
    match nextCol tr with
    | (Except.error e, tr1) => (0, setColError tr1 "cannot read `int64`" e)
    | (Except.ok bcol, tr1) =>
      match goAtoi bcol with
      | Except.ok n =>
        if -((2 : Int) ^ 63) ≤ n ∧ n ≤ (2 : Int) ^ 63 - 1 then (n, tr1)
        else
          match goParseInt bcol 64 with
          | Except.error e => (0, setColError tr1 "cannot parse `int64`" e)
          | Except.ok n64 => (n64, tr1)
      | Except.error _ =>
        match goParseInt bcol 64 with
        | Except.error e => (0, setColError tr1 "cannot parse `int64`" e)
        | Except.ok n64 => (n64, tr1)

/-- Reader.Uint64: fast path via Atoi for non-negative values (the uint64 upper
    bound test in the source is vacuously true, kept literally), slow path
    ParseUint 64. -/
def uint64R (tr : Reader) : Nat × Reader :=
  if tr.err.isSome then (0, tr)
  else
    match nextCol tr with
    | (Except.error e, tr1) => (0, setColError tr1 "cannot read `uint64`" e)
    | (Except.ok bcol, tr1) =>
      match goAtoi bcol with
      | Except.ok n =>
        if 0 ≤ n ∧ n.toNat ≤ (2 : Nat) ^ 64 - 1 then (n.toNat, tr1)
        else
          match goParseUint bcol 64 with
          | Except.error e => (0, setColError tr1 "cannot parse `uint64`" e)
          | Except.ok n64 => (n64, tr1)
      | Except.error _ =>
        match goParseUint bcol 64 with
        | Except.error e => (0, setColError tr1 "cannot parse `uint64`" e)
        | Except.ok n64 => (n64, tr1)

/-- Models the decimal forms accepted by strconv.ParseFloat: optional sign,
    digits with an optional fractional part, optional decimal exponent.  The
    special words (inf, nan) and hexadecimal floats are not modelled, nor is the
    32-bit rounding of ParseFloat(s, 32): no claim concerns float values. -/
def goParseFloat (s : Bytes) : Except Cause Float :=
  let p := splitSign s
  let q := p.2
  let eIdx := match indexByte q 101 with
              | some i => some i
              | none => indexByte q 69
  let mant := match eIdx with
              | some i => q.take i
              | none => q
  let expE : Except Cause Int :=
    match eIdx with
    | none => Except.ok 0
    | some i =>
      let ps := splitSign (q.drop (i + 1))
      if ps.2.isEmpty || !decDigits ps.2 then Except.error Cause.invalidSyntax
      else Except.ok (if ps.1 then -(Int.ofNat (decValue ps.2)) else Int.ofNat (decValue ps.2))
  match expE with
  | Except.error e => Except.error e
  | Except.ok ev =>
    let ip := match indexByte mant 46 with
              | some i => mant.take i
              | none => mant
    let fp := match indexByte mant 46 with
              | some i => mant.drop (i + 1)
              | none => []
    if (ip ++ fp).isEmpty || !decDigits (ip ++ fp) then Except.error Cause.invalidSyntax
    else
      let m := decValue (ip ++ fp)
      let e2 : Int := ev - Int.ofNat fp.length
      let v : Float :=
        if e2 < 0 then Float.ofScientific m true e2.natAbs
        else Float.ofScientific m false e2.toNat
      Except.ok (if p.1 then -v else v)

/-- Reader.Float32 (the float32 narrowing of the parsed value is not modelled). -/
def float32R (tr : Reader) : Float × Reader :=
  if tr.err.isSome then (0, tr)
  else
    match nextCol tr with
    | (Except.error e, tr1) => (0, setColError tr1 "cannot read `float32`" e)
    | (Except.ok bcol, tr1) =>
      match goParseFloat bcol with
      | Except.error e => (0, setColError tr1 "cannot parse `float32`" e)
      | Except.ok f => (f, tr1)

/-- Reader.Float64. -/
def float64R (tr : Reader) : Float × Reader :=
  if tr.err.isSome then (0, tr)
  else
    match nextCol tr with
    | (Except.error e, tr1) => (0, setColError tr1 "cannot read `float64`" e)
    | (Except.ok bcol, tr1) =>
      match goParseFloat bcol with
      | Except.error e => (0, setColError tr1 "cannot parse `float64`" e)
      | Except.ok f => (f, tr1)

/-- Go time.Time values as the reader produces them: the zero Time (the package
    variable zeroTime) or time.Date(y, m, d, h, mi, s, 0, time.UTC).  The civil
    constructor is kept symbolic: calendar normalization is not modelled and no
    claim compares distinct civil triples (or a civil value with zero). -/
inductive GoTime where
  | zero
  | civil (y m d h mi s : Int)
deriving DecidableEq, Repr

/-- parseDate of src/dsvreader.go (lines 670-699).  The separator test is the
    source's literal `s[4] != '-' && s[7] != '-'` conjunction. -/
def parseDate (s : Bytes) : Except Cause (Int × Int × Int) :=
  if s.length ≠ 10 then Except.error Cause.tooShortDate
  else if s.getD 4 0 ≠ 45 ∧ s.getD 7 0 ≠ 45 then Except.error Cause.invalidDateFormat
  else
    match goAtoi (s.take 4) with
    | Except.error _ => Except.error Cause.invalidYear
    | Except.ok y =>
      match goAtoi ((s.drop 5).take 2) with
      | Except.error _ => Except.error Cause.invalidMonth
      | Except.ok m =>
        match goAtoi (s.drop 8) with
        | Except.error _ => Except.error Cause.invalidDay
        | Except.ok d => Except.ok (y, m, d)

/-- parseDateTime of src/dsvreader.go (lines 636-668): 19 bytes, parseDate on
    the first 10, literal space/colon separators, Atoi on the two-digit fields,
    and the all-zero-date ClickHouse sentinel short-circuiting to the zero time. -/
def parseDateTime (s : Bytes) : Except Cause GoTime :=
  if s.length ≠ 19 then Except.error Cause.tooShortDatetime
  else
    match parseDate (s.take 10) with
    | Except.error e => Except.error e
    | Except.ok (y, m, d) =>
      let t := s.drop 10
      if t.getD 0 0 ≠ 32 ∨ t.getD 3 0 ≠ 58 ∨ t.getD 6 0 ≠ 58 then
        Except.error Cause.invalidTimeFormat
      else
        match goAtoi ((t.drop 1).take 2) with
        | Except.error _ => Except.error Cause.invalidHour
        | Except.ok h =>
          match goAtoi ((t.drop 4).take 2) with
          | Except.error _ => Except.error Cause.invalidMinute
          | Except.ok mi =>
            match goAtoi (t.drop 7) with
            | Except.error _ => Except.error Cause.invalidSecond
            | Except.ok sec =>
              if y = 0 ∧ m = 0 ∧ d = 0 then Except.ok GoTime.zero
              else Except.ok (GoTime.civil y m d h mi sec)

/-- Reader.Date, with the all-zero ClickHouse sentinel after a successful parse. -/
def dateR (tr : Reader) : GoTime × Reader :=
  if tr.err.isSome then (GoTime.zero, tr)
  else
    match nextCol tr with
    | (Except.error e, tr1) => (GoTime.zero, setColError tr1 "cannot read `date`" e)
    | (Except.ok bcol, tr1) =>
      match parseDate bcol with
      | Except.error e => (GoTime.zero, setColError tr1 "cannot parse `date`" e)
      | Except.ok (y, m, d) =>
        if y = 0 ∧ m = 0 ∧ d = 0 then (GoTime.zero, tr1)
        else (GoTime.civil y m d 0 0 0, tr1)

/-- Reader.DateTime. -/
def dateTimeR (tr : Reader) : GoTime × Reader :=
  if tr.err.isSome then (GoTime.zero, tr)
  else
    match nextCol tr with
    | (Except.error e, tr1) => (GoTime.zero, setColError tr1 "cannot read `datetime`" e)
    | (Except.ok bcol, tr1) =>
      match parseDateTime bcol with
      | Except.error e => (GoTime.zero, setColError tr1 "cannot parse `datetime`" e)
      | Except.ok dt => (dt, tr1)

/-! Auxiliary definitions used to state the claims. -/

/-- The escape mapping as the specification words it (spec 4.2): marker followed
    by b, f, r, n, t, 0, quote or marker decodes to the named byte, any other
    escaped byte stands for itself. -/
def specMap (c : Nat) : Nat :=
  if c = 98 then 8
  else if c = 102 then 12
  else if c = 114 then 13
  else if c = 110 then 10
  else if c = 116 then 9
  else if c = 48 then 0
  else if c = 39 then 39
  else if c = 92 then 92
  else c

/-- The unescape transformation as the specification words it: each two-byte
    sequence (marker + following byte) is replaced by its single decoded byte;
    a trailing lone marker has no following byte and stays. -/
def specUnescape : Bytes → Bytes
  | [] => []
  | [c] => [c]
  | c :: c2 :: rest =>
    if c = 92 then specMap c2 :: specUnescape rest
    else c :: specUnescape (c2 :: rest)

/-- The bytes the underlying stream has yet to deliver to the row splitter. -/
def streamRest (tr : Reader) : Bytes := tr.rb ++ tr.chunks.flatten

/-- The io.EOF flag is only set with the fill buffer empty and the stream
    exhausted (how the reader actually evolves from any fresh state). -/
def StreamInv (tr : Reader) : Prop := tr.rErr = true → tr.rb = [] ∧ tr.chunks = []

/-- No pending chunk contains the escape marker. -/
def cleanChunks (tr : Reader) : Prop := ∀ c ∈ tr.chunks, ¬ 92 ∈ c

/-- The fields of two readers that column operations observe agree. -/
def obsEq (tr tr' : Reader) : Prop :=
  tr.row = tr'.row ∧ tr.col = tr'.col ∧ tr.rowBuf = tr'.rowBuf ∧ tr.b = tr'.b ∧
  tr.scratch = tr'.scratch ∧ tr.err = tr'.err ∧ tr.sep = tr'.sep

/-- Bisimulation between two readers fed the same bytes under different
    physical-read splittings of a marker-free stream. -/
def Sim (tr tr' : Reader) : Prop :=
  obsEq tr tr' ∧ streamRest tr = streamRest tr' ∧
  tr.needUnescape = false ∧ tr'.needUnescape = false ∧
  StreamInv tr ∧ StreamInv tr' ∧ cleanChunks tr ∧ cleanChunks tr'

/-- Abstract operations a caller can run against a reader, and their outputs:
    the observable protocol (rows, column bytes, errors). -/
inductive Op where
  | nextO | bytesO | stringO | skipO | errO
deriving DecidableEq, Repr

inductive Out where
  | nextOut : Bool → Out
  | bytesOut : Option Bytes → Out
  | stringOut : Bytes → Out
  | skipOut : Out
  | errOut : Option Err → Out
deriving DecidableEq, Repr

def runOp (tr : Reader) : Op → Out × Reader
  | Op.nextO => ((Out.nextOut (next tr).1), (next tr).2)
  | Op.bytesO => ((Out.bytesOut (bytes tr).1), (bytes tr).2)
  | Op.stringO => ((Out.stringOut (stringCol tr).1), (stringCol tr).2)
  | Op.skipO => (Out.skipOut, skipCol tr)
  | Op.errO => (Out.errOut (errorAcc tr), tr)

def runOps : List Op → Reader → List Out × Reader
  | [], tr => ([], tr)
  | o :: os, tr =>
    let p := runOp tr o
    let q := runOps os p.2
    (p.1 :: q.1, q.2)

/-- A row serialized as the wire format expects: columns joined by the separator. -/
def mkRow (sep : Nat) : List Bytes → Bytes
  | [] => []
  | [c] => c
  | c :: c2 :: cs => c ++ sep :: mkRow sep (c2 :: cs)

/-- A whole input: every row newline-terminated. -/
def mkInput (sep : Nat) (rows : List (List Bytes)) : Bytes :=
  (rows.map (fun r => mkRow sep r ++ [10])).flatten

/-- A column is well-formed for the wire format when it contains no newline,
    no escape marker and no separator byte. -/
def wfCol (sep : Nat) (c : Bytes) : Prop := ¬ 10 ∈ c ∧ ¬ 92 ∈ c ∧ ¬ sep ∈ c

/-- Read k columns with Bytes, collecting the successful results. -/
def readCols : Nat → Reader → List Bytes × Reader
  | 0, tr => ([], tr)
  | Nat.succ k, tr =>
    match bytes tr with
    | (none, tr1) => ([], tr1)
    | (some c, tr1) =>
      let p := readCols k tr1
      (c :: p.1, p.2)

/-- Read k columns with String. -/
def readColsS : Nat → Reader → List Bytes × Reader
  | 0, tr => ([], tr)
  | Nat.succ k, tr =>
    let p := stringCol tr
    let q := readColsS k p.2
    (p.1 :: q.1, q.2)

/-- Advance through rows, reading the planned number of columns from each. -/
def readTable : List Nat → Reader → List (List Bytes) × Reader
  | [], tr => ([], tr)
  | k :: ks, tr =>
    match next tr with
    | (false, tr1) => ([], tr1)
    | (true, tr1) =>
      let p := readCols k tr1
      let q := readTable ks p.2
      (p.1 :: q.1, q.2)

def readTableS : List Nat → Reader → List (List Bytes) × Reader
  | [], tr => ([], tr)
  | k :: ks, tr =>
    match next tr with
    | (false, tr1) => ([], tr1)
    | (true, tr1) =>
      let p := readColsS k tr1
      let q := readTableS ks p.2
      (p.1 :: q.1, q.2)

/-- A reader state as it stands right after Next returned a row s: used to
    exercise a single column accessor on a chosen column. -/
def colState (s : Bytes) : Reader :=
  { chunks := [], rb := [], rErr := false, col := 0, row := 1, rowBuf := s,
    b := some s, scratch := [], err := none, sep := 44, needUnescape := false }

/-- Recognizes the unread-columns misuse error. -/
def isUnreadColsErr : Option Err → Bool
  | some (Err.unreadCols _ _ _) => true
  | _ => false

/-! ## Helper lemmas about indexByte and list splitting -/

theorem indexByte_none_iff (s : Bytes) (c : Nat) : indexByte s c = none ↔ c ∉ s := by
  induction s with
  | nil => simp [indexByte]
  | cons x xs ih =>
    by_cases hx : x = c
    · subst hx; simp [indexByte]
    · have hcx : ¬ c = x := fun h => hx h.symm
      simp [indexByte, hx, Option.map_eq_none', ih, List.mem_cons, hcx]

theorem indexByte_some_lt (s : Bytes) (c n : Nat) (h : indexByte s c = some n) :
    n < s.length := by
  induction s generalizing n with
  | nil => simp [indexByte] at h
  | cons x xs ih =>
    by_cases hx : x = c
    · rw [show indexByte (x :: xs) c = some 0 from by simp [indexByte, hx]] at h
      injection h with h0
      subst h0
      simp [List.length_cons]
    · rw [show indexByte (x :: xs) c = (indexByte xs c).map (fun i => i + 1) from by
        simp [indexByte, hx]] at h
      cases hm : indexByte xs c with
      | none => rw [hm] at h; simp at h
      | some m =>
        rw [hm] at h
        simp at h
        have := ih m hm
        simp [List.length_cons]
        omega

theorem indexByte_append_left (s t : Bytes) (c n : Nat) (h : indexByte s c = some n) :
    indexByte (s ++ t) c = some n := by
  induction s generalizing n with
  | nil => simp [indexByte] at h
  | cons x xs ih =>
    by_cases hx : x = c
    · rw [show indexByte (x :: xs) c = some 0 from by simp [indexByte, hx]] at h
      injection h with h0
      subst h0
      simp [indexByte, hx]
    · rw [show indexByte (x :: xs) c = (indexByte xs c).map (fun i => i + 1) from by
        simp [indexByte, hx]] at h
      cases hm : indexByte xs c with
      | none => rw [hm] at h; simp at h
      | some m =>
        rw [hm] at h
        simp at h
        subst h
        simp [indexByte, hx, ih m hm]

theorem indexByte_append_none (s t : Bytes) (c : Nat) (h : indexByte s c = none) :
    indexByte (s ++ t) c = (indexByte t c).map (fun i => i + s.length) := by
  induction s with
  | nil => simp
  | cons x xs ih =>
    by_cases hx : x = c
    · simp [indexByte, hx] at h
    · rw [show indexByte (x :: xs) c = (indexByte xs c).map (fun i => i + 1) from by
        simp [indexByte, hx]] at h
      rw [Option.map_eq_none'] at h
      rw [List.cons_append]
      rw [show indexByte (x :: (xs ++ t)) c = (indexByte (xs ++ t) c).map (fun i => i + 1) from by
        simp [indexByte, hx]]
      rw [ih h]
      cases indexByte t c with
      | none => simp
      | some m => simp [List.length_cons]; omega

theorem indexByte_of_no_mem_cons (xs ys : Bytes) (c : Nat) (h : c ∉ xs) :
    indexByte (xs ++ c :: ys) c = some xs.length := by
  induction xs with
  | nil => simp [indexByte]
  | cons x l ih =>
    have hx : ¬ x = c := by
      intro hc; exact h (hc ▸ List.mem_cons_self x l)
    have h' : c ∉ l := fun hc => h (List.mem_cons_of_mem x hc)
    rw [List.cons_append]
    rw [show indexByte (x :: (l ++ c :: ys)) c = (indexByte (l ++ c :: ys) c).map (fun i => i + 1) from by
      simp [indexByte, hx]]
    rw [ih h']
    simp [List.length_cons]

theorem take_len_append (xs ys : Bytes) (k : Nat) :
    (xs ++ ys).take (xs.length + k) = xs ++ ys.take k := by
  induction xs with
  | nil => simp
  | cons a l ih =>
    have h1 : (a :: l).length + k = (l.length + k) + 1 := by
      simp [List.length_cons]; omega
    rw [h1, List.cons_append, List.take_succ_cons, ih, List.cons_append]

theorem drop_len_append (xs ys : Bytes) (k : Nat) :
    (xs ++ ys).drop (xs.length + k) = ys.drop k := by
  induction xs with
  | nil => simp
  | cons a l ih =>
    have h1 : (a :: l).length + k = (l.length + k) + 1 := by
      simp [List.length_cons]; omega
    rw [h1, List.cons_append, List.drop_succ_cons, ih]

/-! ## Characterizing the row-splitting loop -/

theorem rowLoop_eq_found (x : Reader) (n : Nat) (hm : indexByte x.rb 10 = some n) :
    rowLoop x = (true, { x with rb := x.rb.drop (n + 1), scratch := [],
                                rowBuf := x.scratch ++ x.rb.take n,
                                b := some (x.scratch ++ x.rb.take n) }) := by
  rw [rowLoop, hm]

theorem rowLoop_eq_rErr (x : Reader) (hm : indexByte x.rb 10 = none)
    (herr : x.rErr = true) :
    rowLoop x = (false, { x with scratch := x.scratch ++ x.rb, rb := [],
                                 err := some (eofErr x.row (x.scratch ++ x.rb)) }) := by
  rw [rowLoop, hm]
  simp [herr]

theorem rowLoop_eq_exhausted (x : Reader) (hm : indexByte x.rb 10 = none)
    (herr : x.rErr = false) (hch : x.chunks = []) :
    rowLoop x = (false, { x with scratch := x.scratch ++ x.rb, rb := [], rErr := true,
                                 needUnescape := false,
                                 err := some (eofErr x.row (x.scratch ++ x.rb)) }) := by
  rw [rowLoop, hm]
  simp only [herr, Bool.false_eq_true, if_false]
  split
  next h => simp [hch]
  next c' cs' h => rw [hch] at h; simp at h

theorem rowLoop_eq_refill (x : Reader) (c : Bytes) (cs : List Bytes)
    (hm : indexByte x.rb 10 = none) (herr : x.rErr = false) (hch : x.chunks = c :: cs) :
    rowLoop x = rowLoop { x with scratch := x.scratch ++ x.rb, rb := c, chunks := cs,
                                 needUnescape := (indexByte c 92).isSome } := by
  conv_lhs => rw [rowLoop, hm]
  simp only [herr, Bool.false_eq_true, if_false]
  split
  next h => rw [hch] at h; simp at h
  next c' cs' h =>
    rw [hch] at h
    injection h with h1 h2
    subst h1
    subst h2
    rfl

/-- When the pending stream contains a newline at index n, the loop succeeds
    with the row scratch ++ the pending bytes before it, consuming them. -/
theorem rowLoop_found :
    ∀ (tr : Reader), StreamInv tr → ∀ n, indexByte (streamRest tr) 10 = some n →
    ∃ tr2, rowLoop tr = (true, tr2) ∧
      tr2.rowBuf = tr.scratch ++ (streamRest tr).take n ∧
      tr2.b = some (tr.scratch ++ (streamRest tr).take n) ∧
      tr2.scratch = [] ∧
      tr2.err = tr.err ∧ tr2.row = tr.row ∧ tr2.col = tr.col ∧ tr2.sep = tr.sep ∧
      streamRest tr2 = (streamRest tr).drop (n + 1) ∧
      StreamInv tr2 ∧
      (∀ c ∈ tr2.chunks, c ∈ tr.chunks) ∧
      (tr.needUnescape = false → cleanChunks tr → tr2.needUnescape = false) := by
  intro tr
  induction tr using rowLoop.induct with
  | case1 x m hm =>
    intro hinv n hfind
    have hidx : indexByte (streamRest x) 10 = some m := by
      unfold streamRest
      exact indexByte_append_left _ _ _ _ hm
    rw [hidx] at hfind
    injection hfind with hmn
    subst hmn
    have hlt : m < x.rb.length := indexByte_some_lt _ _ _ hm
    refine ⟨_, rowLoop_eq_found x m hm, ?_, ?_, rfl, rfl, rfl, rfl, rfl, ?_, ?_, ?_, ?_⟩
    · simp [streamRest, List.take_append_of_le_length hlt.le]
    · simp [streamRest, List.take_append_of_le_length hlt.le]
    · simp [streamRest, List.drop_append_of_le_length hlt]
    · intro h
      obtain ⟨hrb, hch⟩ := hinv h
      rw [hrb] at hm
      simp [indexByte] at hm
    · intro c hc
      exact hc
    · intro h _
      exact h
  | case2 x hm herr =>
    intro hinv n hfind
    obtain ⟨hrb, hch⟩ := hinv herr
    rw [show streamRest x = [] from by simp [streamRest, hrb, hch]] at hfind
    simp [indexByte] at hfind
  | case3 x hm herr hch =>
    intro hinv n hfind
    rw [show streamRest x = x.rb from by simp [streamRest, hch]] at hfind
    rw [hm] at hfind
    cases hfind
  | case4 x hm herr c cs hch ih =>
    intro hinv n hfind
    simp only [Bool.not_eq_true] at herr
    have hrest : streamRest x = x.rb ++ (c ++ cs.flatten) := by
      simp [streamRest, hch]
    rw [hrest, indexByte_append_none _ _ _ hm] at hfind
    cases hidx : indexByte (c ++ cs.flatten) 10 with
    | none =>
      rw [hidx] at hfind
      simp at hfind
    | some k =>
      rw [hidx] at hfind
      simp only [Option.map_some'] at hfind
      injection hfind with hkn
      obtain ⟨tr2, heq, h1, h2, h3, h4, h5, h6, h7, h8, h9, h10, h11⟩ :=
        ih (by intro h
               have hh : x.rErr = true := h
               rw [herr] at hh
               cases hh)
           k (by simpa [streamRest] using hidx)
      refine ⟨tr2, ?_, ?_, ?_, h3, h4, h5, h6, h7, ?_, h9, ?_, ?_⟩
      · rw [rowLoop_eq_refill x c cs hm herr hch]
        exact heq
      · rw [h1]
        simp only [streamRest] at *
        rw [hrest, ← hkn, show k + x.rb.length = x.rb.length + k from Nat.add_comm _ _,
            take_len_append]
        simp [List.append_assoc]
      · rw [h2]
        simp only [streamRest] at *
        rw [hrest, ← hkn, show k + x.rb.length = x.rb.length + k from Nat.add_comm _ _,
            take_len_append]
        simp [List.append_assoc]
      · rw [h8]
        simp only [streamRest] at *
        rw [hrest, ← hkn,
            show k + x.rb.length + 1 = x.rb.length + (k + 1) from by omega,
            drop_len_append]
      · intro c' hc'
        rw [hch]
        exact List.mem_cons_of_mem _ (h10 c' hc')
      · intro _ hclean
        have hc92 : 92 ∉ c := hclean c (by rw [hch]; exact List.mem_cons_self _ _)
        have hnu' : (indexByte c 92).isSome = false := by
          rw [(indexByte_none_iff c 92).2 hc92]
          rfl
        exact h11 hnu' (by
          intro c' hc'
          exact hclean c' (by rw [hch]; exact List.mem_cons_of_mem _ hc'))

/-- When the pending stream contains no newline, the loop fails with eofErr of
    everything left (EOF when nothing is pending, truncation otherwise). -/
theorem rowLoop_no_newline :
    ∀ (tr : Reader), StreamInv tr → indexByte (streamRest tr) 10 = none →
    ∃ tr2, rowLoop tr = (false, tr2) ∧
      tr2.err = some (eofErr tr.row (tr.scratch ++ streamRest tr)) ∧
      tr2.scratch = tr.scratch ++ streamRest tr ∧
      tr2.rb = [] ∧ tr2.chunks = [] ∧ tr2.rErr = true ∧
      tr2.row = tr.row ∧ tr2.col = tr.col ∧ tr2.rowBuf = tr.rowBuf ∧
      tr2.b = tr.b ∧ tr2.sep = tr.sep ∧
      (tr.rErr = false → tr2.needUnescape = false) ∧
      (tr.rErr = true → tr2.needUnescape = tr.needUnescape) := by
  intro tr
  induction tr using rowLoop.induct with
  | case1 x m hm =>
    intro hinv hfind
    have hidx : indexByte (streamRest x) 10 = some m := by
      unfold streamRest
      exact indexByte_append_left _ _ _ _ hm
    rw [hidx] at hfind
    cases hfind
  | case2 x hm herr =>
    intro hinv hfind
    obtain ⟨hrb, hch⟩ := hinv herr
    have hsr : streamRest x = [] := by simp [streamRest, hrb, hch]
    refine ⟨_, rowLoop_eq_rErr x hm herr, ?_, ?_, rfl, hch, herr, rfl, rfl, rfl, rfl, rfl, ?_, ?_⟩
    · simp [hsr, hrb]
    · simp [hsr, hrb]
    · intro h
      rw [herr] at h
      cases h
    · intro _
      rfl
  | case3 x hm herr hch =>
    intro hinv hfind
    simp only [Bool.not_eq_true] at herr
    have hsr : streamRest x = x.rb := by simp [streamRest, hch]
    refine ⟨_, rowLoop_eq_exhausted x hm herr hch, ?_, ?_, rfl, hch, rfl, rfl, rfl, rfl, rfl, rfl, ?_, ?_⟩
    · simp [hsr]
    · simp [hsr]
    · intro _
      rfl
    · intro h
      rw [herr] at h
      cases h
  | case4 x hm herr c cs hch ih =>
    intro hinv hfind
    simp only [Bool.not_eq_true] at herr
    have hrest : streamRest x = x.rb ++ (c ++ cs.flatten) := by
      simp [streamRest, hch]
    rw [hrest, indexByte_append_none _ _ _ hm] at hfind
    have hidx : indexByte (c ++ cs.flatten) 10 = none := by
      cases hidx : indexByte (c ++ cs.flatten) 10 with
      | none => rfl
      | some k => rw [hidx] at hfind; simp at hfind
    obtain ⟨tr2, heq, h1, h2, h3, h4, h5, h6, h7, h8, h9, h10, h11, h12⟩ :=
      ih (by intro h
             have hh : x.rErr = true := h
             rw [herr] at hh
             cases hh)
         (by simpa [streamRest] using hidx)
    refine ⟨tr2, ?_, ?_, ?_, h3, h4, h5, h6, h7, h8, h9, h10, ?_, ?_⟩
    · rw [rowLoop_eq_refill x c cs hm herr hch]
      exact heq
    · rw [h1]
      simp only [streamRest] at *
      rw [hrest]
      simp [List.append_assoc]
    · rw [h2]
      simp only [streamRest] at *
      rw [hrest]
      simp [List.append_assoc]
    · intro _
      exact h11 herr
    · intro h
      rw [herr] at h
      cases h

/-! ## Bisimulation under different stream splittings -/

theorem nextCol_frame (tr : Reader) :
    (nextCol tr).2.chunks = tr.chunks ∧ (nextCol tr).2.rb = tr.rb ∧
    (nextCol tr).2.rErr = tr.rErr ∧ (nextCol tr).2.needUnescape = tr.needUnescape ∧
    (nextCol tr).2.row = tr.row ∧ (nextCol tr).2.rowBuf = tr.rowBuf ∧
    (nextCol tr).2.scratch = tr.scratch ∧ (nextCol tr).2.err = tr.err ∧
    (nextCol tr).2.sep = tr.sep := by
  by_cases h0 : tr.row = 0
  · simp [nextCol, h0]
  · cases hb : tr.b with
    | none => simp [nextCol, h0, hb]
    | some cur =>
      cases hix : indexByte cur tr.sep with
      | none => simp [nextCol, h0, hb, hix]
      | some n => simp [nextCol, h0, hb, hix]

theorem sim_update_colb (tr tr' : Reader) (h : Sim tr tr') (c c' : Nat) (hcc : c = c')
    (ob ob' : Option Bytes) (hoo : ob = ob') :
    Sim { tr with col := c, b := ob } { tr' with col := c', b := ob' } := by
  subst hcc
  subst hoo
  obtain ⟨⟨h1, h2, h3, h4, h5, h6, h7⟩, hrest, hnu, hnu', hsi, hsi', hcl, hcl'⟩ := h
  exact ⟨⟨h1, rfl, h3, rfl, h5, h6, h7⟩, hrest, hnu, hnu', hsi, hsi', hcl, hcl'⟩

theorem sim_setColError (tr tr' : Reader) (h : Sim tr tr') (m : String) (c : Cause) :
    Sim (setColError tr m c) (setColError tr' m c) := by
  obtain ⟨⟨h1, h2, h3, h4, h5, h6, h7⟩, hrest, hnu, hnu', hsi, hsi', hcl, hcl'⟩ := h
  exact ⟨⟨h1, h2, h3, h4, h5, by simp [setColError, h1, h2, h3], h7⟩,
         hrest, hnu, hnu', hsi, hsi', hcl, hcl'⟩

theorem sim_nextCol (tr tr' : Reader) (h : Sim tr tr') :
    (nextCol tr).1 = (nextCol tr').1 ∧ Sim (nextCol tr).2 (nextCol tr').2 := by
  obtain ⟨⟨h1, h2, h3, h4, h5, h6, h7⟩, hrest, hnu, hnu', hsi, hsi', hcl, hcl'⟩ := h
  have hSim : Sim tr tr' :=
    ⟨⟨h1, h2, h3, h4, h5, h6, h7⟩, hrest, hnu, hnu', hsi, hsi', hcl, hcl'⟩
  by_cases hr0 : tr'.row = 0
  · have e1 : nextCol tr = (Except.error Cause.missingNext, tr) := by
      simp [nextCol, h1, hr0]
    have e2 : nextCol tr' = (Except.error Cause.missingNext, tr') := by
      simp [nextCol, hr0]
    rw [e1, e2]
    exact ⟨rfl, hSim⟩
  · cases hbv : tr'.b with
    | none =>
      have e1 : nextCol tr = (Except.error Cause.noMoreCols, { tr with col := tr.col + 1 }) := by
        simp [nextCol, h1, hr0, h4, hbv]
      have e2 : nextCol tr' = (Except.error Cause.noMoreCols, { tr' with col := tr'.col + 1 }) := by
        simp [nextCol, hr0, hbv]
      rw [e1, e2]
      refine ⟨rfl, ?_⟩
      have := sim_update_colb tr tr' hSim (tr.col + 1) (tr'.col + 1) (by rw [h2])
        tr.b tr'.b h4
      simpa [h4, hbv] using this
    | some cur =>
      cases hix : indexByte cur tr'.sep with
      | none =>
        have e1 : nextCol tr = (Except.ok cur, { tr with col := tr.col + 1, b := none }) := by
          simp [nextCol, h1, hr0, h4, hbv, h7, hix]
        have e2 : nextCol tr' = (Except.ok cur, { tr' with col := tr'.col + 1, b := none }) := by
          simp [nextCol, hr0, hbv, hix]
        rw [e1, e2]
        exact ⟨rfl, sim_update_colb tr tr' hSim _ _ (by rw [h2]) _ _ rfl⟩
      | some n =>
        have e1 : nextCol tr = (Except.ok (cur.take n),
            { tr with col := tr.col + 1, b := some (cur.drop (n + 1)) }) := by
          simp [nextCol, h1, hr0, h4, hbv, h7, hix]
        have e2 : nextCol tr' = (Except.ok (cur.take n),
            { tr' with col := tr'.col + 1, b := some (cur.drop (n + 1)) }) := by
          simp [nextCol, hr0, hbv, hix]
        rw [e1, e2]
        exact ⟨rfl, sim_update_colb tr tr' hSim _ _ (by rw [h2]) _ _ rfl⟩

theorem sim_bytes (tr tr' : Reader) (h : Sim tr tr') :
    (bytes tr).1 = (bytes tr').1 ∧ Sim (bytes tr).2 (bytes tr').2 := by
  have h6 : tr.err = tr'.err := h.1.2.2.2.2.2.1
  cases he : tr'.err with
  | some e =>
    have e1 : bytes tr = (none, tr) := by simp [bytes, h6, he]
    have e2 : bytes tr' = (none, tr') := by simp [bytes, he]
    rw [e1, e2]
    exact ⟨rfl, h⟩
  | none =>
    obtain ⟨hout, hsim⟩ := sim_nextCol tr tr' h
    have hfr := nextCol_frame tr
    have hfr' := nextCol_frame tr'
    rcases hnc : nextCol tr with ⟨r1, t1⟩
    rcases hnc' : nextCol tr' with ⟨r1', t1'⟩
    rw [hnc, hnc'] at hout hsim
    rw [hnc] at hfr
    rw [hnc'] at hfr'
    simp only at hout hsim hfr hfr'
    cases r1' with
    | error e =>
      subst hout
      have e1 : bytes tr = (none, setColError t1 "cannot read `bytes`" e) := by
        simp [bytes, h6, he, hnc]
      have e2 : bytes tr' = (none, setColError t1' "cannot read `bytes`" e) := by
        simp [bytes, he, hnc']
      rw [e1, e2]
      exact ⟨rfl, sim_setColError t1 t1' hsim _ _⟩
    | ok bcol =>
      subst hout
      have hnut : t1.needUnescape = false := by
        rw [hfr.2.2.2.1]
        exact h.2.2.1
      have hnut' : t1'.needUnescape = false := by
        rw [hfr'.2.2.2.1]
        exact h.2.2.2.1
      have e1 : bytes tr = (some bcol, t1) := by
        simp [bytes, h6, he, hnc, hnut]
      have e2 : bytes tr' = (some bcol, t1') := by
        simp [bytes, he, hnc', hnut']
      rw [e1, e2]
      exact ⟨rfl, hsim⟩

theorem sim_stringCol (tr tr' : Reader) (h : Sim tr tr') :
    (stringCol tr).1 = (stringCol tr').1 ∧ Sim (stringCol tr).2 (stringCol tr').2 := by
  obtain ⟨hout, hsim⟩ := sim_bytes tr tr' h
  rcases hb1 : bytes tr with ⟨o1, t1⟩
  rcases hb2 : bytes tr' with ⟨o2, t2⟩
  rw [hb1, hb2] at hout hsim
  simp only at hout hsim
  subst hout
  cases o1 with
  | none => simp [stringCol, hb1, hb2]; exact hsim
  | some c => simp [stringCol, hb1, hb2]; exact hsim

theorem sim_skipCol (tr tr' : Reader) (h : Sim tr tr') :
    Sim (skipCol tr) (skipCol tr') := by
  have h6 : tr.err = tr'.err := h.1.2.2.2.2.2.1
  cases he : tr'.err with
  | some e =>
    have e1 : skipCol tr = tr := by simp [skipCol, h6, he]
    have e2 : skipCol tr' = tr' := by simp [skipCol, he]
    rw [e1, e2]
    exact h
  | none =>
    obtain ⟨hout, hsim⟩ := sim_nextCol tr tr' h
    rcases hnc : nextCol tr with ⟨r1, t1⟩
    rcases hnc' : nextCol tr' with ⟨r1', t1'⟩
    rw [hnc, hnc'] at hout hsim
    simp only at hout hsim
    subst hout
    cases r1 with
    | error e =>
      have e1 : skipCol tr = setColError t1 "cannot skip column" e := by
        simp [skipCol, h6, he, hnc]
      have e2 : skipCol tr' = setColError t1' "cannot skip column" e := by
        simp [skipCol, he, hnc']
      rw [e1, e2]
      exact sim_setColError t1 t1' hsim _ _
    | ok bcol =>
      have e1 : skipCol tr = t1 := by simp [skipCol, h6, he, hnc]
      have e2 : skipCol tr' = t1' := by simp [skipCol, he, hnc']
      rw [e1, e2]
      exact hsim

theorem sim_errorAcc (tr tr' : Reader) (h : Sim tr tr') : errorAcc tr = errorAcc tr' := by
  have h6 : tr.err = tr'.err := h.1.2.2.2.2.2.1
  unfold errorAcc
  rw [h6]

theorem sim_next (tr tr' : Reader) (h : Sim tr tr') :
    (next tr).1 = (next tr').1 ∧ Sim (next tr).2 (next tr').2 := by
  obtain ⟨⟨h1, h2, h3, h4, h5, h6, h7⟩, hrest, hnu, hnu', hsi, hsi', hcl, hcl'⟩ := h
  have hSim : Sim tr tr' :=
    ⟨⟨h1, h2, h3, h4, h5, h6, h7⟩, hrest, hnu, hnu', hsi, hsi', hcl, hcl'⟩
  cases he : tr'.err with
  | some e =>
    have e1 : next tr = (false, tr) := by simp [next, h6, he]
    have e2 : next tr' = (false, tr') := by simp [next, he]
    rw [e1, e2]
    exact ⟨rfl, hSim⟩
  | none =>
    have hh : hasCols tr = hasCols tr' := by
      unfold hasCols
      rw [h3, h4]
    cases hc : hasCols tr' with
    | true =>
      have e1 : next tr = (false, { tr with
          err := some (Err.unreadCols tr.row tr.rowBuf (tr.b.getD [])) }) := by
        simp [next, h6, he, hh, hc]
      have e2 : next tr' = (false, { tr' with
          err := some (Err.unreadCols tr'.row tr'.rowBuf (tr'.b.getD [])) }) := by
        simp [next, he, hc]
      rw [e1, e2]
      refine ⟨rfl, ⟨⟨h1, h2, h3, h4, h5, ?_, h7⟩, hrest, hnu, hnu', hsi, hsi', hcl, hcl'⟩⟩
      simp [h1, h3, h4]
    | false =>
      have e1 : next tr = rowLoop { tr with row := tr.row + 1, col := 0, rowBuf := [] } := by
        simp [next, h6, he, hh, hc]
      have e2 : next tr' = rowLoop { tr' with row := tr'.row + 1, col := 0, rowBuf := [] } := by
        simp [next, he, hc]
      set t1 : Reader := { tr with row := tr.row + 1, col := 0, rowBuf := [] } with ht1
      set t1' : Reader := { tr' with row := tr'.row + 1, col := 0, rowBuf := [] } with ht1'
      have hrest1 : streamRest t1 = streamRest t1' := hrest
      have hsi1 : StreamInv t1 := hsi
      have hsi1' : StreamInv t1' := hsi'
      cases hfind : indexByte (streamRest t1') 10 with
      | some n =>
        obtain ⟨u, hu, u1, u2, u3, u4, u5, u6, u7, u8, u9, u10, u11⟩ :=
          rowLoop_found t1 hsi1 n (by rw [hrest1]; exact hfind)
        obtain ⟨v, hv, v1, v2, v3, v4, v5, v6, v7, v8, v9, v10, v11⟩ :=
          rowLoop_found t1' hsi1' n hfind
        rw [e1, e2, hu, hv]
        refine ⟨rfl, ⟨⟨?_, ?_, ?_, ?_, ?_, ?_, ?_⟩, ?_, ?_, ?_, ?_, ?_, ?_, ?_⟩⟩
        · rw [u5, v5]
          show tr.row + 1 = tr'.row + 1
          rw [h1]
        · rw [u6, v6]
        · rw [u1, v1, hrest1]
          show tr.scratch ++ _ = tr'.scratch ++ _
          rw [h5]
        · rw [u2, v2, hrest1]
          show some (tr.scratch ++ _) = some (tr'.scratch ++ _)
          rw [h5]
        · rw [u3, v3]
        · rw [u4, v4]
          exact h6
        · rw [u7, v7]
          exact h7
        · rw [u8, v8, hrest1]
        · exact u11 hnu hcl
        · exact v11 hnu' hcl'
        · exact u9
        · exact v9
        · intro c hcmem
          exact hcl c (u10 c hcmem)
        · intro c hcmem
          exact hcl' c (v10 c hcmem)
      | none =>
        obtain ⟨u, hu, u1, u2, u3, u4, u5, u6, u7, u8, u9, u10, u11, u12⟩ :=
          rowLoop_no_newline t1 hsi1 (by rw [hrest1]; exact hfind)
        obtain ⟨v, hv, v1, v2, v3, v4, v5, v6, v7, v8, v9, v10, v11, v12⟩ :=
          rowLoop_no_newline t1' hsi1' hfind
        rw [e1, e2, hu, hv]
        have hnuu : u.needUnescape = false := by
          cases hre : tr.rErr with
          | false => exact u11 hre
          | true => rw [u12 hre]; exact hnu
        have hnuv : v.needUnescape = false := by
          cases hre : tr'.rErr with
          | false => exact v11 hre
          | true => rw [v12 hre]; exact hnu'
        refine ⟨rfl, ⟨⟨?_, ?_, ?_, ?_, ?_, ?_, ?_⟩, ?_, hnuu, hnuv, ?_, ?_, ?_, ?_⟩⟩
        · rw [u6, v6]
          show tr.row + 1 = tr'.row + 1
          rw [h1]
        · rw [u7, v7]
        · rw [u8, v8]
        · rw [u9, v9]
          exact h4
        · rw [u2, v2, hrest1]
          show tr.scratch ++ _ = tr'.scratch ++ _
          rw [h5]
        · rw [u1, v1, hrest1]
          show some (eofErr (tr.row + 1) (tr.scratch ++ _)) = some (eofErr (tr'.row + 1) _)
          rw [h1, h5]
        · rw [u10, v10]
          exact h7
        · simp [streamRest, u3, u4, v3, v4]
        · intro _
          exact ⟨u3, u4⟩
        · intro _
          exact ⟨v3, v4⟩
        · intro c hcmem
          rw [u4] at hcmem
          cases hcmem
        · intro c hcmem
          rw [v4] at hcmem
          cases hcmem

theorem sim_runOp (tr tr' : Reader) (h : Sim tr tr') (o : Op) :
    (runOp tr o).1 = (runOp tr' o).1 ∧ Sim (runOp tr o).2 (runOp tr' o).2 := by
  cases o with
  | nextO =>
    obtain ⟨h1, h2⟩ := sim_next tr tr' h
    exact ⟨by simp [runOp, h1], h2⟩
  | bytesO =>
    obtain ⟨h1, h2⟩ := sim_bytes tr tr' h
    exact ⟨by simp [runOp, h1], h2⟩
  | stringO =>
    obtain ⟨h1, h2⟩ := sim_stringCol tr tr' h
    exact ⟨by simp [runOp, h1], h2⟩
  | skipO =>
    exact ⟨rfl, sim_skipCol tr tr' h⟩
  | errO =>
    exact ⟨by simp [runOp, sim_errorAcc tr tr' h], h⟩

theorem sim_runOps (ops : List Op) :
    ∀ tr tr', Sim tr tr' → (runOps ops tr).1 = (runOps ops tr').1 := by
  induction ops with
  | nil => intro tr tr' _; rfl
  | cons o os ih =>
    intro tr tr' h
    obtain ⟨h1, h2⟩ := sim_runOp tr tr' h o
    show (runOp tr o).1 :: (runOps os (runOp tr o).2).1 =
         (runOp tr' o).1 :: (runOps os (runOp tr' o).2).1
    rw [h1, ih _ _ h2]

theorem sim_init (sep : Nat) (chunks : List Bytes) (hclean : 92 ∉ chunks.flatten) :
    Sim (newCustom sep chunks) (newCustom sep [chunks.flatten]) := by
  refine ⟨⟨rfl, rfl, rfl, rfl, rfl, rfl, rfl⟩, ?_, rfl, rfl, ?_, ?_, ?_, ?_⟩
  · simp [streamRest, newCustom, resetReader]
  · intro h
    simp [newCustom, resetReader] at h
  · intro h
    simp [newCustom, resetReader] at h
  · intro c hc h92
    exact hclean (List.mem_flatten.mpr ⟨c, hc, h92⟩)
  · intro c hc h92
    have : c = chunks.flatten := by
      simp [newCustom, resetReader] at hc
      exact hc
    exact hclean (this ▸ h92)

/-- Claim C1, counterexample: the claim fails for rows containing escape
    sequences.  The stream "a\\nc\n" delivered as "a\\" then "nc\n" leaves
    needUnescape false for the fill that completes the row, so Bytes returns the
    raw bytes 97, 92, 110, 99, while the single-read delivery unescapes them to
    97, 10, 99. -/
theorem c1_counterexample :
    (bytes (next (newCustom 44 [[97, 92], [110, 99, 10]])).2).1 ≠
      (bytes (next (newCustom 44 [[97, 92, 110, 99, 10]])).2).1 := by
  simp [next, hasCols, newCustom, resetReader, rowLoop, indexByte, bytes, nextCol,
        setColError, unescapeLoop, unescapeByte]

/-- Claim C1 (amended): for every input byte sequence that does not contain the
    escape marker, and every way of splitting it into successive physical reads,
    the reader's observable behaviour (row advances, Bytes and String column
    values, SkipCol, and the Error accessor) is identical to reading the same
    bytes delivered in a single read. -/
theorem c1_split_equivalence (sep : Nat) (chunks : List Bytes) (ops : List Op)
    (hclean : 92 ∉ chunks.flatten) :
    (runOps ops (newCustom sep chunks)).1 =
      (runOps ops (newCustom sep [chunks.flatten])).1 :=
  sim_runOps ops _ _ (sim_init sep chunks hclean)

/-- Witness for C1: the spec's own example, "ab" then "c\n" versus "abc\n". -/
theorem c1_split_equivalence_witness :
    92 ∉ ([[97, 98], [99, 10]] : List Bytes).flatten ∧
    (runOps [Op.nextO, Op.bytesO, Op.errO] (newCustom 44 [[97, 98], [99, 10]])).1 =
      (runOps [Op.nextO, Op.bytesO, Op.errO]
        (newCustom 44 [([[97, 98], [99, 10]] : List Bytes).flatten])).1 :=
  ⟨by decide,
   c1_split_equivalence 44 [[97, 98], [99, 10]] [Op.nextO, Op.bytesO, Op.errO] (by decide)⟩

/-! ## Round-trip reading of well-formed input -/

theorem not_mem_mkRow (sep x : Nat) (cols : List Bytes) (hx : x ≠ sep)
    (h : ∀ c ∈ cols, x ∉ c) : x ∉ mkRow sep cols := by
  induction cols with
  | nil => simp [mkRow]
  | cons c cs ih =>
    cases cs with
    | nil =>
      simp [mkRow]
      exact h c (List.mem_cons_self _ _)
    | cons c2 cs2 =>
      simp [mkRow, List.mem_append, List.mem_cons]
      refine ⟨h c (List.mem_cons_self _ _), hx, ?_⟩
      have := ih (fun c' hc' => h c' (List.mem_cons_of_mem _ hc'))
      simpa [mkRow] using this

theorem mkInput_cons (sep : Nat) (r : List Bytes) (rows : List (List Bytes)) :
    mkInput sep (r :: rows) = mkRow sep r ++ 10 :: mkInput sep rows := by
  simp [mkInput]

theorem bytes_ok_of (tr : Reader) (c : Bytes) (t1 : Reader)
    (herr : tr.err = none) (hnc : nextCol tr = (Except.ok c, t1)) (h92 : 92 ∉ c) :
    bytes tr = (some c, t1) := by
  cases hnu : t1.needUnescape with
  | false => simp [bytes, herr, hnc, hnu]
  | true =>
    have : indexByte c 92 = none := (indexByte_none_iff c 92).2 h92
    simp [bytes, herr, hnc, hnu, this]

theorem stringCol_ok_of (tr : Reader) (c : Bytes) (t1 : Reader)
    (herr : tr.err = none) (hnc : nextCol tr = (Except.ok c, t1)) (h92 : 92 ∉ c) :
    stringCol tr = (c, t1) := by
  simp [stringCol, bytes_ok_of tr c t1 herr hnc h92]

theorem nextCol_mkRow (tr : Reader) (c : Bytes) (cs : List Bytes)
    (hrow : tr.row ≠ 0) (hb : tr.b = some (mkRow tr.sep (c :: cs))) (hsep : tr.sep ∉ c) :
    nextCol tr = (Except.ok c,
      { tr with col := tr.col + 1,
                b := if cs = [] then none else some (mkRow tr.sep cs) }) := by
  cases cs with
  | nil =>
    have hix : indexByte c tr.sep = none := (indexByte_none_iff _ _).2 hsep
    simp [nextCol, hrow, hb, mkRow, hix]
  | cons c2 cs2 =>
    have hb' : tr.b = some (c ++ tr.sep :: mkRow tr.sep (c2 :: cs2)) := by
      rw [hb]; simp [mkRow]
    have hix : indexByte (c ++ tr.sep :: mkRow tr.sep (c2 :: cs2)) tr.sep = some c.length :=
      indexByte_of_no_mem_cons _ _ _ hsep
    have htake : (c ++ tr.sep :: mkRow tr.sep (c2 :: cs2)).take c.length = c :=
      List.take_left _ _
    have hdrop : (c ++ tr.sep :: mkRow tr.sep (c2 :: cs2)).drop (c.length + 1) =
        mkRow tr.sep (c2 :: cs2) := by
      rw [show c.length + 1 = c.length + 1 from rfl, drop_len_append c (tr.sep :: mkRow tr.sep (c2 :: cs2)) 1]
      rfl
    simp [nextCol, hrow, hb', hix, htake, hdrop]

theorem readCols_ok : ∀ (cols : List Bytes) (tr : Reader),
    tr.err = none → tr.row ≠ 0 → tr.b = some (mkRow tr.sep cols) →
    (∀ c ∈ cols, wfCol tr.sep c) → cols ≠ [] →
    readCols cols.length tr = (cols, { tr with col := tr.col + cols.length, b := none }) := by
  intro cols
  induction cols with
  | nil => intro tr _ _ _ _ hne; exact absurd rfl hne
  | cons c cs ih =>
    intro tr herr hrow hb hwf _
    obtain ⟨hc10, hc92, hcsep⟩ := hwf c (List.mem_cons_self _ _)
    have hnc := nextCol_mkRow tr c cs hrow hb hcsep
    have hby := bytes_ok_of tr c _ herr hnc hc92
    cases cs with
    | nil =>
      show readCols (Nat.succ 0) tr = _
      unfold readCols
      rw [hby]
      simp [readCols]
    | cons c2 cs2 =>
      have hnext := ih { tr with col := tr.col + 1, b := some (mkRow tr.sep (c2 :: cs2)) }
        herr hrow (by simp) (fun c' hc' => hwf c' (List.mem_cons_of_mem _ hc')) (by simp)
      dsimp only at hnext
      show readCols (Nat.succ (c2 :: cs2).length) tr = _
      unfold readCols
      rw [hby]
      simp only [if_neg (by simp : ¬ (c2 :: cs2 : List Bytes) = [])]
      rw [hnext]
      simp only [Prod.mk.injEq, Reader.mk.injEq, List.length_cons, true_and, and_true]
      omega

theorem readColsS_ok : ∀ (cols : List Bytes) (tr : Reader),
    tr.err = none → tr.row ≠ 0 → tr.b = some (mkRow tr.sep cols) →
    (∀ c ∈ cols, wfCol tr.sep c) → cols ≠ [] →
    readColsS cols.length tr = (cols, { tr with col := tr.col + cols.length, b := none }) := by
  intro cols
  induction cols with
  | nil => intro tr _ _ _ _ hne; exact absurd rfl hne
  | cons c cs ih =>
    intro tr herr hrow hb hwf _
    obtain ⟨hc10, hc92, hcsep⟩ := hwf c (List.mem_cons_self _ _)
    have hnc := nextCol_mkRow tr c cs hrow hb hcsep
    have hst := stringCol_ok_of tr c _ herr hnc hc92
    cases cs with
    | nil =>
      show readColsS (Nat.succ 0) tr = _
      unfold readColsS
      rw [hst]
      simp [readColsS]
    | cons c2 cs2 =>
      have hnext := ih { tr with col := tr.col + 1, b := some (mkRow tr.sep (c2 :: cs2)) }
        herr hrow (by simp) (fun c' hc' => hwf c' (List.mem_cons_of_mem _ hc')) (by simp)
      dsimp only at hnext
      show readColsS (Nat.succ (c2 :: cs2).length) tr = _
      unfold readColsS
      rw [hst]
      simp only [if_neg (by simp : ¬ (c2 :: cs2 : List Bytes) = [])]
      rw [hnext]
      simp only [Prod.mk.injEq, Reader.mk.injEq, List.length_cons, true_and, and_true]
      omega

theorem next_mkInput (tr : Reader) (r : List Bytes) (rows : List (List Bytes))
    (herr : tr.err = none) (hhc : hasCols tr = false) (hscr : tr.scratch = [])
    (hsr : streamRest tr = mkInput tr.sep (r :: rows)) (hinv : StreamInv tr)
    (hwf : ∀ c ∈ r, wfCol tr.sep c) (hsep : tr.sep ≠ 10) :
    ∃ tr2, next tr = (true, tr2) ∧ tr2.rowBuf = mkRow tr.sep r ∧
      tr2.b = some (mkRow tr.sep r) ∧ tr2.scratch = [] ∧ tr2.err = none ∧
      tr2.row = tr.row + 1 ∧ tr2.col = 0 ∧ tr2.sep = tr.sep ∧
      streamRest tr2 = mkInput tr.sep rows ∧ StreamInv tr2 := by
  have h10 : (10 : Nat) ∉ mkRow tr.sep r :=
    not_mem_mkRow tr.sep 10 r (fun h => hsep h.symm) (fun c hc => (hwf c hc).1)
  have hfind : indexByte (streamRest tr) 10 = some (mkRow tr.sep r).length := by
    rw [hsr, mkInput_cons]
    exact indexByte_of_no_mem_cons _ _ _ h10
  set t1 : Reader := { tr with row := tr.row + 1, col := 0, rowBuf := [] } with ht1
  have hfind1 : indexByte (streamRest t1) 10 = some (mkRow tr.sep r).length := hfind
  have hinv1 : StreamInv t1 := hinv
  obtain ⟨tr2, heq, h1, h2, h3, h4, h5, h6, h7, h8, h9, _, _⟩ :=
    rowLoop_found t1 hinv1 _ hfind1
  have hrow : t1.scratch ++ (streamRest t1).take (mkRow tr.sep r).length = mkRow tr.sep r := by
    show tr.scratch ++ (streamRest tr).take (mkRow tr.sep r).length = _
    rw [hscr, hsr, mkInput_cons, List.take_left _ (10 :: mkInput tr.sep rows)]
    rfl
  refine ⟨tr2, ?_, ?_, ?_, h3, ?_, ?_, ?_, h7, ?_, h9⟩
  · rw [next]
    rw [show tr.err.isSome = false from by rw [herr]; rfl]
    simp only [Bool.false_eq_true, if_false, hhc]
    exact heq
  · rw [h1, hrow]
  · rw [h2, hrow]
  · rw [h4]
    exact herr
  · rw [h5]
  · rw [h6]
  · rw [h8]
    show (streamRest tr).drop ((mkRow tr.sep r).length + 1) = _
    rw [hsr, mkInput_cons, drop_len_append (mkRow tr.sep r) (10 :: mkInput tr.sep rows) 1]
    rfl

theorem readTable_mkInput : ∀ (rows : List (List Bytes)) (tr : Reader),
    tr.err = none → hasCols tr = false → tr.scratch = [] →
    streamRest tr = mkInput tr.sep rows → StreamInv tr → tr.sep ≠ 10 →
    (∀ r ∈ rows, ∀ c ∈ r, wfCol tr.sep c) →
    (readTable (rows.map List.length) tr).1 = rows ∧
    (readTable (rows.map List.length) tr).2.err = none := by
  intro rows
  induction rows with
  | nil => intro tr herr _ _ _ _ _ _; exact ⟨rfl, herr⟩
  | cons r rows ih =>
    intro tr herr hhc hscr hsr hinv hsep hwf
    obtain ⟨tr2, heq, h1, h2, h3, h4, h5, h6, h7, h8, h9⟩ :=
      next_mkInput tr r rows herr hhc hscr hsr hinv
        (hwf r (List.mem_cons_self _ _)) hsep
    have hstep : readTable (r.length :: rows.map List.length) tr =
        ((readCols r.length tr2).1 ::
           (readTable (rows.map List.length) (readCols r.length tr2).2).1,
         (readTable (rows.map List.length) (readCols r.length tr2).2).2) := by
      simp only [readTable]
      rw [heq]
    rw [show (r :: rows).map List.length = r.length :: rows.map List.length from rfl, hstep]
    by_cases hr : r = []
    · subst hr
      have hrec := ih tr2 h4 (by simp [hasCols, h1, mkRow]) h3
        (by rw [h8, h7]) h9 (by rw [h7]; exact hsep)
        (by rw [h7]; exact fun r' hr' => hwf r' (List.mem_cons_of_mem _ hr'))
      rw [show readCols (List.length ([] : List Bytes)) tr2 = ([], tr2) from rfl]
      exact ⟨by rw [hrec.1], hrec.2⟩
    · have hcols := readCols_ok r tr2 h4 (by rw [h5]; omega)
        (by rw [h2, h7]) (by rw [h7]; exact hwf r (List.mem_cons_self _ _)) hr
      rw [hcols]
      have hrec := ih { tr2 with col := tr2.col + r.length, b := none }
        h4 (by simp [hasCols]) h3 (by show streamRest tr2 = _; rw [h8, h7]) h9
        (by show tr2.sep ≠ 10; rw [h7]; exact hsep)
        (by show ∀ r' ∈ rows, ∀ c ∈ r', wfCol tr2.sep c
            rw [h7]
            exact fun r' hr' => hwf r' (List.mem_cons_of_mem _ hr'))
      exact ⟨by rw [hrec.1], hrec.2⟩

theorem readTableS_mkInput : ∀ (rows : List (List Bytes)) (tr : Reader),
    tr.err = none → hasCols tr = false → tr.scratch = [] →
    streamRest tr = mkInput tr.sep rows → StreamInv tr → tr.sep ≠ 10 →
    (∀ r ∈ rows, ∀ c ∈ r, wfCol tr.sep c) →
    (readTableS (rows.map List.length) tr).1 = rows ∧
    (readTableS (rows.map List.length) tr).2.err = none := by
  intro rows
  induction rows with
  | nil => intro tr herr _ _ _ _ _ _; exact ⟨rfl, herr⟩
  | cons r rows ih =>
    intro tr herr hhc hscr hsr hinv hsep hwf
    obtain ⟨tr2, heq, h1, h2, h3, h4, h5, h6, h7, h8, h9⟩ :=
      next_mkInput tr r rows herr hhc hscr hsr hinv
        (hwf r (List.mem_cons_self _ _)) hsep
    have hstep : readTableS (r.length :: rows.map List.length) tr =
        ((readColsS r.length tr2).1 ::
           (readTableS (rows.map List.length) (readColsS r.length tr2).2).1,
         (readTableS (rows.map List.length) (readColsS r.length tr2).2).2) := by
      simp only [readTableS]
      rw [heq]
    rw [show (r :: rows).map List.length = r.length :: rows.map List.length from rfl, hstep]
    by_cases hr : r = []
    · subst hr
      have hrec := ih tr2 h4 (by simp [hasCols, h1, mkRow]) h3
        (by rw [h8, h7]) h9 (by rw [h7]; exact hsep)
        (by rw [h7]; exact fun r' hr' => hwf r' (List.mem_cons_of_mem _ hr'))
      rw [show readColsS (List.length ([] : List Bytes)) tr2 = ([], tr2) from rfl]
      exact ⟨by rw [hrec.1], hrec.2⟩
    · have hcols := readColsS_ok r tr2 h4 (by rw [h5]; omega)
        (by rw [h2, h7]) (by rw [h7]; exact hwf r (List.mem_cons_self _ _)) hr
      rw [hcols]
      have hrec := ih { tr2 with col := tr2.col + r.length, b := none }
        h4 (by simp [hasCols]) h3 (by show streamRest tr2 = _; rw [h8, h7]) h9
        (by show tr2.sep ≠ 10; rw [h7]; exact hsep)
        (by show ∀ r' ∈ rows, ∀ c ∈ r', wfCol tr2.sep c
            rw [h7]
            exact fun r' hr' => hwf r' (List.mem_cons_of_mem _ hr'))
      exact ⟨by rw [hrec.1], hrec.2⟩

/-- Claim C2: for every input consisting of newline-terminated rows of
    separator-delimited columns in which the escape marker does not occur (and
    whose columns contain no newline or separator byte), iterating Next and
    reading every column sequentially with Bytes, and likewise with String,
    returns exactly the original bytes of each column in order, with no error. -/
theorem c2_roundtrip (sep : Nat) (rows : List (List Bytes)) (hsep : sep ≠ 10)
    (hwf : ∀ r ∈ rows, ∀ c ∈ r, wfCol sep c) :
    (readTable (rows.map List.length) (newCustom sep [mkInput sep rows])).1 = rows ∧
    (readTable (rows.map List.length) (newCustom sep [mkInput sep rows])).2.err = none ∧
    (readTableS (rows.map List.length) (newCustom sep [mkInput sep rows])).1 = rows ∧
    (readTableS (rows.map List.length) (newCustom sep [mkInput sep rows])).2.err = none := by
  have h1 := readTable_mkInput rows (newCustom sep [mkInput sep rows]) rfl rfl rfl
    (by simp [streamRest, newCustom, resetReader])
    (by intro h; simp [newCustom, resetReader] at h)
    hsep hwf
  have h2 := readTableS_mkInput rows (newCustom sep [mkInput sep rows]) rfl rfl rfl
    (by simp [streamRest, newCustom, resetReader])
    (by intro h; simp [newCustom, resetReader] at h)
    hsep hwf
  exact ⟨h1.1, h1.2, h2.1, h2.2⟩

/-- Witness for C2: the two-row CSV input "a,b\nc\n" round-trips. -/
theorem c2_roundtrip_witness :
    ((44 : Nat) ≠ 10 ∧ ∀ r ∈ ([[[97], [98]], [[99]]] : List (List Bytes)),
        ∀ c ∈ r, wfCol 44 c) ∧
    ((readTable (([[[97], [98]], [[99]]] : List (List Bytes)).map List.length)
        (newCustom 44 [mkInput 44 [[[97], [98]], [[99]]]])).1 = [[[97], [98]], [[99]]] ∧
     (readTable (([[[97], [98]], [[99]]] : List (List Bytes)).map List.length)
        (newCustom 44 [mkInput 44 [[[97], [98]], [[99]]]])).2.err = none ∧
     (readTableS (([[[97], [98]], [[99]]] : List (List Bytes)).map List.length)
        (newCustom 44 [mkInput 44 [[[97], [98]], [[99]]]])).1 = [[[97], [98]], [[99]]] ∧
     (readTableS (([[[97], [98]], [[99]]] : List (List Bytes)).map List.length)
        (newCustom 44 [mkInput 44 [[[97], [98]], [[99]]]])).2.err = none) :=
  ⟨⟨by decide, by simp [wfCol]⟩, c2_roundtrip 44 [[[97], [98]], [[99]]] (by decide) (by simp [wfCol])⟩

/-! ## The unescaping slow path matches the specification mapping -/

theorem specMap_eq_unescapeByte (c : Nat) : specMap c = unescapeByte c := rfl

theorem indexByte_decomp (s : Bytes) (c n : Nat) (h : indexByte s c = some n) :
    s = s.take n ++ c :: s.drop (n + 1) ∧ c ∉ s.take n ∧ (s.take n).length = n := by
  induction s generalizing n with
  | nil => simp [indexByte] at h
  | cons x xs ih =>
    by_cases hx : x = c
    · rw [show indexByte (x :: xs) c = some 0 from by simp [indexByte, hx]] at h
      injection h with h0
      subst h0
      subst hx
      simp
    · rw [show indexByte (x :: xs) c = (indexByte xs c).map (fun i => i + 1) from by
        simp [indexByte, hx]] at h
      cases hm : indexByte xs c with
      | none => rw [hm] at h; simp at h
      | some m =>
        rw [hm] at h
        simp at h
        subst h
        obtain ⟨hd, hmem, hlen⟩ := ih m hm
        refine ⟨?_, ?_, ?_⟩
        · rw [List.take_succ_cons, List.drop_succ_cons]
          conv_lhs => rw [hd]
          rfl
        · rw [List.take_succ_cons]
          intro hc
          rcases List.mem_cons.mp hc with h1 | h1
          · exact hx h1.symm
          · exact hmem h1
        · rw [List.take_succ_cons, List.length_cons, hlen]

theorem unescapeLoop_nil (d : Bytes) : unescapeLoop d [] = d := by
  rw [unescapeLoop]

theorem unescapeLoop_cons_none (d : Bytes) (c : Nat) (rest : Bytes)
    (h : indexByte rest 92 = none) :
    unescapeLoop d (c :: rest) = (d.dropLast ++ [unescapeByte c]) ++ rest := by
  rw [unescapeLoop, h]

theorem unescapeLoop_cons_some (d : Bytes) (c : Nat) (rest : Bytes) (n : Nat)
    (h : indexByte rest 92 = some n) :
    unescapeLoop d (c :: rest) =
      unescapeLoop ((d.dropLast ++ [unescapeByte c]) ++ rest.take (n + 1))
        (rest.drop (n + 1)) := by
  rw [unescapeLoop, h]

theorem specUnescape_cons_ne (c : Nat) (rest : Bytes) (hc : c ≠ 92) :
    specUnescape (c :: rest) = c :: specUnescape rest := by
  cases rest with
  | nil => rfl
  | cons c2 rest2 => simp [specUnescape, hc]

theorem specUnescape_no92 (s : Bytes) (h : 92 ∉ s) : specUnescape s = s := by
  induction s with
  | nil => rfl
  | cons c rest ih =>
    have hc : c ≠ 92 := by
      intro hc
      exact h (hc ▸ List.mem_cons_self _ _)
    rw [specUnescape_cons_ne c rest hc, ih (fun hm => h (List.mem_cons_of_mem _ hm))]

theorem specUnescape_append_no92 (xs ys : Bytes) (h : 92 ∉ xs) :
    specUnescape (xs ++ 92 :: ys) = xs ++ specUnescape (92 :: ys) := by
  induction xs with
  | nil => rfl
  | cons c rest ih =>
    have hc : c ≠ 92 := by
      intro hc
      exact h (hc ▸ List.mem_cons_self _ _)
    rw [List.cons_append, specUnescape_cons_ne c _ hc,
        ih (fun hm => h (List.mem_cons_of_mem _ hm)), List.cons_append]

theorem unescapeLoop_spec : ∀ (d b : Bytes) (q : Bytes), d = q ++ [92] →
    unescapeLoop d b = q ++ specUnescape (92 :: b) := by
  intro d b
  induction d, b using unescapeLoop.induct with
  | case1 d =>
    intro q hd
    subst hd
    rw [unescapeLoop_nil]
    rfl
  | case2 d x xs h =>
    intro q hd
    subst hd
    rw [unescapeLoop_cons_none _ _ _ h]
    have h92 : 92 ∉ xs := (indexByte_none_iff xs 92).1 h
    rw [List.dropLast_concat]
    show (q ++ [unescapeByte x]) ++ xs = q ++ specMap x :: specUnescape xs
    rw [specUnescape_no92 xs h92, specMap_eq_unescapeByte]
    simp
  | case3 d x xs d1 n h ih =>
    intro q hd
    subst hd
    rw [unescapeLoop_cons_some _ _ _ _ h]
    obtain ⟨hdec, hmem, hlen⟩ := indexByte_decomp xs 92 n h
    have htake : xs.take (n + 1) = xs.take n ++ [92] := by
      conv_lhs => rw [hdec]
      rw [show n + 1 = (xs.take n).length + 1 from by rw [hlen],
          take_len_append]
      rfl
    have harg : (List.dropLast (q ++ [92]) ++ [unescapeByte x]) ++ xs.take (n + 1) =
        (q ++ unescapeByte x :: xs.take n) ++ [92] := by
      rw [List.dropLast_concat, htake]
      simp
    refine (ih (q ++ unescapeByte x :: xs.take n) harg).trans ?_
    show (q ++ unescapeByte x :: xs.take n) ++ specUnescape (92 :: xs.drop (n + 1)) =
      q ++ specUnescape (92 :: x :: xs)
    conv_rhs => rw [show specUnescape (92 :: x :: xs) = specMap x :: specUnescape xs from rfl]
    rw [show specUnescape xs = xs.take n ++ specUnescape (92 :: xs.drop (n + 1)) from by
      conv_lhs => rw [hdec]
      exact specUnescape_append_no92 _ _ hmem]
    rw [specMap_eq_unescapeByte]
    simp

/-- Claim C3, counterexample: the claim fails as stated.  A reachable column
    whose raw bytes contain the escape marker is returned raw, not decoded per
    the mapping: deliver "a\\nc\n" as "a\\" then "nc\n"; the fill completing
    the row has no marker, so needUnescape is false and Bytes returns the raw
    bytes 97, 92, 110, 99 instead of specUnescape of them (97, 10, 99). -/
theorem c3_counterexample :
    (nextCol (next (newCustom 44 [[97, 92], [110, 99, 10]])).2).1 =
      Except.ok [97, 92, 110, 99] ∧
    92 ∈ ([97, 92, 110, 99] : Bytes) ∧
    (bytes (next (newCustom 44 [[97, 92], [110, 99, 10]])).2).1 =
      some [97, 92, 110, 99] ∧
    some ([97, 92, 110, 99] : Bytes) ≠ some (specUnescape [97, 92, 110, 99]) := by
  refine ⟨?_, by decide, ?_, by simp [specUnescape, specMap]⟩
  · simp [next, hasCols, newCustom, resetReader, rowLoop, indexByte, nextCol]
  · simp [next, hasCols, newCustom, resetReader, rowLoop, indexByte, bytes, nextCol,
          setColError]

/-- Claim C3 (amended): for every column whose raw bytes contain the escape
    marker, read while the reader's unescape gate is on (needUnescape true,
    i.e. the most recent buffer fill contained the marker — always the case
    when the row arrived in a single fill), the Bytes accessor replaces each
    two-byte sequence (marker + following byte) by the single decoded byte per
    the mapping b(98)->8, f(102)->12, r(114)->13, n(110)->10, t(116)->9,
    0(48)->0, quote(39)->39, marker(92)->92, any other byte -> that byte
    literally: the returned bytes are specUnescape of the raw column.  A
    marker-containing column read with the gate off (its marker arrived in an
    earlier physical read than the row-completing fill) is returned raw. -/
theorem c3_unescape (tr : Reader) (s : Bytes) (t1 : Reader)
    (herr : tr.err = none) (hnc : nextCol tr = (Except.ok s, t1))
    (hnu : t1.needUnescape = true) (hmem : 92 ∈ s) :
    (bytes tr).1 = some (specUnescape s) := by
  obtain ⟨n, hn⟩ : ∃ n, indexByte s 92 = some n := by
    cases hx : indexByte s 92 with
    | none => exact absurd hmem ((indexByte_none_iff s 92).1 hx)
    | some n => exact ⟨n, rfl⟩
  have hslow : bytes tr = (some (unescapeLoop (s.take (n + 1)) (s.drop (n + 1))), t1) := by
    simp [bytes, herr, hnc, hnu, hn]
  have hval : (bytes tr).1 = some (unescapeLoop (s.take (n + 1)) (s.drop (n + 1))) := by
    rw [hslow]
  obtain ⟨hdec, hmem', hlen⟩ := indexByte_decomp s 92 n hn
  have htake : s.take (n + 1) = s.take n ++ [92] := by
    conv_lhs => rw [hdec]
    rw [show n + 1 = (s.take n).length + 1 from by rw [hlen], take_len_append]
    rfl
  rw [hval, htake, unescapeLoop_spec _ _ (s.take n) rfl]
  congr 1
  conv_rhs => rw [hdec]
  exact (specUnescape_append_no92 _ _ hmem').symm

/-- Witness for C3: the column 97, 92, 110 ("a\n") unescapes to 97, 10. -/
theorem c3_unescape_witness :
    ({ colState [97, 92, 110] with needUnescape := true } : Reader).err = none ∧
    nextCol { colState [97, 92, 110] with needUnescape := true } =
      (Except.ok [97, 92, 110],
       (nextCol { colState [97, 92, 110] with needUnescape := true }).2) ∧
    (nextCol { colState [97, 92, 110] with needUnescape := true }).2.needUnescape = true ∧
    92 ∈ ([97, 92, 110] : Bytes) ∧
    (bytes { colState [97, 92, 110] with needUnescape := true }).1 =
      some (specUnescape [97, 92, 110]) ∧
    specUnescape [97, 92, 110] = [97, 10] :=
  ⟨rfl, rfl, rfl, by decide,
   c3_unescape _ [97, 92, 110] _ rfl rfl rfl (by decide), by decide⟩

/-! ## End-of-stream behaviour and sticky errors -/

/-- Claim C4: when the pending stream contains no further newline, Next returns
    false; the Error accessor then reports a truncation error exactly when
    non-empty partial-row bytes are pending (input not ending in a newline), and
    no error when the stream ended at a newline boundary. -/
theorem c4_eof (tr : Reader)
    (herr : tr.err = none) (hhc : hasCols tr = false) (hinv : StreamInv tr)
    (hfind : indexByte (streamRest tr) 10 = none) :
    (next tr).1 = false ∧
    errorAcc (next tr).2 =
      (if tr.scratch ++ streamRest tr = [] then none
       else some (Err.truncated (tr.row + 1) (tr.scratch ++ streamRest tr))) := by
  have e1 : next tr = rowLoop { tr with row := tr.row + 1, col := 0, rowBuf := [] } := by
    simp [next, herr, hhc]
  obtain ⟨tr2, heq, h1, h2, h3, h4, h5, h6, h7, h8, h9, h10, h11, h12⟩ :=
    rowLoop_no_newline { tr with row := tr.row + 1, col := 0, rowBuf := [] } hinv hfind
  rw [e1, heq]
  refine ⟨rfl, ?_⟩
  show errorAcc tr2 = _
  have h1' : tr2.err = some (eofErr (tr.row + 1) (tr.scratch ++ streamRest tr)) := h1
  by_cases hp : tr.scratch ++ streamRest tr = []
  · simp [errorAcc, h1', eofErr, hp]
  · simp [errorAcc, h1', eofErr, hp]

/-- Witness for C4: the stream delivering only "ab" (no trailing newline) makes
    Next fail with a truncation error carrying row 1 and the partial bytes. -/
theorem c4_eof_witness :
    ((newCustom 44 [[97, 98]]).err = none ∧
     hasCols (newCustom 44 [[97, 98]]) = false ∧
     StreamInv (newCustom 44 [[97, 98]]) ∧
     indexByte (streamRest (newCustom 44 [[97, 98]])) 10 = none) ∧
    ((next (newCustom 44 [[97, 98]])).1 = false ∧
     errorAcc (next (newCustom 44 [[97, 98]])).2 =
       (if (newCustom 44 [[97, 98]]).scratch ++ streamRest (newCustom 44 [[97, 98]]) = []
        then none
        else some (Err.truncated ((newCustom 44 [[97, 98]]).row + 1)
          ((newCustom 44 [[97, 98]]).scratch ++ streamRest (newCustom 44 [[97, 98]]))))) :=
  ⟨⟨rfl, rfl, by intro h; simp [newCustom, resetReader] at h, by decide⟩,
   c4_eof (newCustom 44 [[97, 98]]) rfl rfl
     (by intro h; simp [newCustom, resetReader] at h) (by decide)⟩

/-- Claim C5: once the sticky error is set, Next, SkipCol, Bytes, String and
    every typed decoder is a no-op returning the zero value, leaving the reader
    state (the error included) unchanged until ResetError. -/
theorem c5_sticky (tr : Reader) (e : Err) (herr : tr.err = some e) :
    next tr = (false, tr) ∧ skipCol tr = tr ∧ bytes tr = (none, tr) ∧
    stringCol tr = ([], tr) ∧ intR tr = (0, tr) ∧ uintR tr = (0, tr) ∧
    int8R tr = (0, tr) ∧ uint8R tr = (0, tr) ∧ int16R tr = (0, tr) ∧
    uint16R tr = (0, tr) ∧ int32R tr = (0, tr) ∧ uint32R tr = (0, tr) ∧
    int64R tr = (0, tr) ∧ uint64R tr = (0, tr) ∧ float32R tr = (0, tr) ∧
    float64R tr = (0, tr) ∧ dateR tr = (GoTime.zero, tr) ∧
    dateTimeR tr = (GoTime.zero, tr) ∧ (next tr).2.err = some e := by
  have hs : tr.err.isSome = true := by rw [herr]; rfl
  refine ⟨by simp [next, hs], by simp [skipCol, hs], by simp [bytes, hs],
          by simp [stringCol, bytes, hs], by simp [intR, hs], by simp [uintR, hs],
          by simp [int8R, hs], by simp [uint8R, hs], by simp [int16R, hs],
          by simp [uint16R, hs], by simp [int32R, hs], by simp [uint32R, hs],
          by simp [int64R, hs], by simp [uint64R, hs], by simp [float32R, hs],
          by simp [float64R, hs], by simp [dateR, hs], by simp [dateTimeR, hs],
          by simp [next, hs, herr]⟩

/-- Witness for C5: a reader with the EOF error recorded is inert. -/
theorem c5_sticky_witness :
    ({ colState [] with err := some Err.eof } : Reader).err = some Err.eof ∧
    (next { colState [] with err := some Err.eof } =
       (false, { colState [] with err := some Err.eof }) ∧
     skipCol { colState [] with err := some Err.eof } =
       { colState [] with err := some Err.eof } ∧
     bytes { colState [] with err := some Err.eof } =
       (none, { colState [] with err := some Err.eof }) ∧
     stringCol { colState [] with err := some Err.eof } =
       ([], { colState [] with err := some Err.eof }) ∧
     intR { colState [] with err := some Err.eof } =
       (0, { colState [] with err := some Err.eof }) ∧
     uintR { colState [] with err := some Err.eof } =
       (0, { colState [] with err := some Err.eof }) ∧
     int8R { colState [] with err := some Err.eof } =
       (0, { colState [] with err := some Err.eof }) ∧
     uint8R { colState [] with err := some Err.eof } =
       (0, { colState [] with err := some Err.eof }) ∧
     int16R { colState [] with err := some Err.eof } =
       (0, { colState [] with err := some Err.eof }) ∧
     uint16R { colState [] with err := some Err.eof } =
       (0, { colState [] with err := some Err.eof }) ∧
     int32R { colState [] with err := some Err.eof } =
       (0, { colState [] with err := some Err.eof }) ∧
     uint32R { colState [] with err := some Err.eof } =
       (0, { colState [] with err := some Err.eof }) ∧
     int64R { colState [] with err := some Err.eof } =
       (0, { colState [] with err := some Err.eof }) ∧
     uint64R { colState [] with err := some Err.eof } =
       (0, { colState [] with err := some Err.eof }) ∧
     float32R { colState [] with err := some Err.eof } =
       (0, { colState [] with err := some Err.eof }) ∧
     float64R { colState [] with err := some Err.eof } =
       (0, { colState [] with err := some Err.eof }) ∧
     dateR { colState [] with err := some Err.eof } =
       (GoTime.zero, { colState [] with err := some Err.eof }) ∧
     dateTimeR { colState [] with err := some Err.eof } =
       (GoTime.zero, { colState [] with err := some Err.eof }) ∧
     (next { colState [] with err := some Err.eof }).2.err = some Err.eof) :=
  ⟨rfl, c5_sticky { colState [] with err := some Err.eof } Err.eof rfl⟩

/-! ## Column counter, date parsing, Uint8, empty rows -/

/-- Claim C6, counterexample: the claim fails on the "advance_row not called"
    failure: nextCol on a fresh reader (row = 0) returns the missing-Next error
    before tr.col++ runs, leaving the state, col included, unchanged. -/
theorem c6_counterexample :
    (nextCol (newCustom 44 [])).1 = Except.error Cause.missingNext ∧
    (nextCol (newCustom 44 [])).2.col = (newCustom 44 []).col ∧
    (newCustom 44 []).col = 0 :=
  ⟨rfl, rfl, rfl⟩

/-- Claim C6 (amended): every nextCol call made after a Next call (row ≠ 0)
    increments col, including the failing "no more columns" call; a call with
    row = 0 fails with missing-Next and leaves the state unchanged. -/
theorem c6_col_increment (tr : Reader) :
    (tr.row ≠ 0 → (nextCol tr).2.col = tr.col + 1) ∧
    (tr.row = 0 → nextCol tr = (Except.error Cause.missingNext, tr)) := by
  constructor
  · intro h0
    cases hb : tr.b with
    | none => simp [nextCol, h0, hb]
    | some cur =>
      cases hix : indexByte cur tr.sep with
      | none => simp [nextCol, h0, hb, hix]
      | some n => simp [nextCol, h0, hb, hix]
  · intro h0
    simp [nextCol, h0]

/-- Witness for C6: the no-more-columns failure still increments col, while the
    missing-Next failure does not. -/
theorem c6_col_increment_witness :
    ((colState [97]).row ≠ 0 ∧
      (nextCol (colState [97])).2.col = (colState [97]).col + 1) ∧
    ((newCustom 9 []).row = 0 ∧
      nextCol (newCustom 9 []) = (Except.error Cause.missingNext, newCustom 9 [])) :=
  ⟨⟨by decide, (c6_col_increment (colState [97])).1 (by decide)⟩,
   ⟨rfl, (c6_col_increment (newCustom 9 [])).2 rfl⟩⟩

/-- Claim C7, code bug: parseDate checks `s[4] != '-' && s[7] != '-'` (line 676)
    where the doc and the error message demand YYYY-MM-DD; a malformed separator
    at only one of the two offsets is accepted.  "2024-01x15" (offset 7 is 'x')
    parses to (2024, 1, 15) and the Date accessor succeeds on it. -/
theorem c7_parseDate_accepts_bad_separator :
    parseDate [50, 48, 50, 52, 45, 48, 49, 120, 49, 53] = Except.ok (2024, 1, 15) ∧
    ([50, 48, 50, 52, 45, 48, 49, 120, 49, 53] : Bytes).getD 7 0 ≠ 45 ∧
    (dateR (colState [50, 48, 50, 52, 45, 48, 49, 120, 49, 53])).1 =
      GoTime.civil 2024 1 15 0 0 0 ∧
    (dateR (colState [50, 48, 50, 52, 45, 48, 49, 120, 49, 53])).2.err = none :=
  ⟨rfl, by decide, rfl, rfl⟩

/-- Claim C8: Uint8 decodes "255" to 255 with no error; "-1" gives 0 with an
    invalid-syntax cause and "256" gives 0 with an out-of-range cause, distinct
    recorded errors, each carrying the row index, column index and raw row. -/
theorem c8_uint8 :
    (uint8R (colState [50, 53, 53])).1 = 255 ∧
    (uint8R (colState [50, 53, 53])).2.err = none ∧
    (uint8R (colState [45, 49])).1 = 0 ∧
    (uint8R (colState [45, 49])).2.err =
      some (Err.colError "cannot parse `uint8`" 1 1 [45, 49] Cause.invalidSyntax) ∧
    (uint8R (colState [50, 53, 54])).1 = 0 ∧
    (uint8R (colState [50, 53, 54])).2.err =
      some (Err.colError "cannot parse `uint8`" 1 1 [50, 53, 54] Cause.outOfRange) ∧
    (uint8R (colState [45, 49])).2.err ≠ (uint8R (colState [50, 53, 54])).2.err := by
  refine ⟨rfl, rfl, rfl, rfl, rfl, rfl, by decide⟩

theorem parseDateTime_zero (s : Bytes) (hlen : s.length = 19)
    (hdate : parseDate (s.take 10) = Except.ok (0, 0, 0)) :
    ∀ t, parseDateTime s = Except.ok t → t = GoTime.zero := by
  intro t ht
  unfold parseDateTime at ht
  rw [if_neg (by rw [hlen]; simp), hdate] at ht
  dsimp only at ht
  iterate 6 (all_goals try split at ht)
  all_goals simp_all

/-- Claim C9: for every 19-byte datetime column whose date component parses to
    year 0, month 0, day 0, the DateTime decoder returns the zero time value
    regardless of the time-of-day bytes (the sentinel result when they are
    well-formed, and the zero value through the error path otherwise); in
    particular "0000-00-00 12:34:56" parses to the zero time, not an error. -/
theorem c9_datetime_zero_sentinel :
    (∀ (tr : Reader) (s : Bytes), tr.err = none → (nextCol tr).1 = Except.ok s →
      s.length = 19 → parseDate (s.take 10) = Except.ok (0, 0, 0) →
      (dateTimeR tr).1 = GoTime.zero) ∧
    parseDateTime [48, 48, 48, 48, 45, 48, 48, 45, 48, 48,
                   32, 49, 50, 58, 51, 52, 58, 53, 54] = Except.ok GoTime.zero := by
  constructor
  · intro tr s herr hok hlen hdate
    rcases hp : nextCol tr with ⟨r, t1⟩
    rw [hp] at hok
    simp only at hok
    subst hok
    cases hdt : parseDateTime s with
    | error e => simp [dateTimeR, herr, hp, hdt]
    | ok dt =>
      have hz := parseDateTime_zero s hlen hdate dt hdt
      subst hz
      simp [dateTimeR, herr, hp, hdt]
  · rfl

/-- Witness for C9: the column "0000-00-00 12:34:56". -/
theorem c9_datetime_zero_sentinel_witness :
    ((colState [48, 48, 48, 48, 45, 48, 48, 45, 48, 48,
                32, 49, 50, 58, 51, 52, 58, 53, 54]).err = none ∧
     (nextCol (colState [48, 48, 48, 48, 45, 48, 48, 45, 48, 48,
                32, 49, 50, 58, 51, 52, 58, 53, 54])).1 =
       Except.ok [48, 48, 48, 48, 45, 48, 48, 45, 48, 48,
                  32, 49, 50, 58, 51, 52, 58, 53, 54] ∧
     ([48, 48, 48, 48, 45, 48, 48, 45, 48, 48,
       32, 49, 50, 58, 51, 52, 58, 53, 54] : Bytes).length = 19 ∧
     parseDate (([48, 48, 48, 48, 45, 48, 48, 45, 48, 48,
       32, 49, 50, 58, 51, 52, 58, 53, 54] : Bytes).take 10) = Except.ok (0, 0, 0)) ∧
    (dateTimeR (colState [48, 48, 48, 48, 45, 48, 48, 45, 48, 48,
       32, 49, 50, 58, 51, 52, 58, 53, 54])).1 = GoTime.zero :=
  ⟨⟨rfl, rfl, by decide, rfl⟩,
   c9_datetime_zero_sentinel.1 _ _ rfl rfl (by decide) rfl⟩

theorem rowLoop_true_inv :
    ∀ (x : Reader), (rowLoop x).1 = true →
    (rowLoop x).2.b = some ((rowLoop x).2.rowBuf) ∧ (rowLoop x).2.err = x.err ∧
    (rowLoop x).2.row = x.row ∧ (rowLoop x).2.col = x.col := by
  intro x
  induction x using rowLoop.induct with
  | case1 x m hm =>
    intro _
    rw [rowLoop_eq_found x m hm]
    exact ⟨rfl, rfl, rfl, rfl⟩
  | case2 x hm herr =>
    rw [rowLoop_eq_rErr x hm herr]
    intro h
    cases h
  | case3 x hm herr hch =>
    intro h
    rw [rowLoop_eq_exhausted x hm (by simpa using herr) hch] at h
    cases h
  | case4 x hm herr c cs hch ih =>
    intro h
    rw [rowLoop_eq_refill x c cs hm (by simpa using herr) hch] at h ⊢
    exact ih h

theorem rowLoop_no_unread :
    ∀ (x : Reader), x.err = none → isUnreadColsErr (rowLoop x).2.err = false := by
  intro x
  induction x using rowLoop.induct with
  | case1 x m hm =>
    intro herr
    rw [rowLoop_eq_found x m hm]
    simp [isUnreadColsErr, herr]
  | case2 x hm herr =>
    intro _
    rw [rowLoop_eq_rErr x hm herr]
    by_cases hp : x.scratch ++ x.rb = []
    · simp [eofErr, hp, isUnreadColsErr]
    · simp [eofErr, hp, isUnreadColsErr]
  | case3 x hm herr hch =>
    intro _
    rw [rowLoop_eq_exhausted x hm (by simpa using herr) hch]
    by_cases hp : x.scratch ++ x.rb = []
    · simp [eofErr, hp, isUnreadColsErr]
    · simp [eofErr, hp, isUnreadColsErr]
  | case4 x hm herr c cs hch ih =>
    intro he
    rw [rowLoop_eq_refill x c cs hm (by simpa using herr) hch]
    exact ih he

theorem next_true_state (tr : Reader) (h : (next tr).1 = true) :
    tr.err = none ∧ (next tr).2.b = some ((next tr).2.rowBuf) ∧
    (next tr).2.err = none ∧ (next tr).2.row = tr.row + 1 ∧ (next tr).2.col = 0 := by
  cases herr : tr.err with
  | some e =>
    rw [show next tr = (false, tr) from by
      simp [next, herr]] at h
    cases h
  | none =>
    cases hhc : hasCols tr with
    | true =>
      rw [show next tr = (false, { tr with
          err := some (Err.unreadCols tr.row tr.rowBuf (tr.b.getD [])) }) from by
        simp [next, herr, hhc]] at h
      cases h
    | false =>
      have e1 : next tr = rowLoop { tr with row := tr.row + 1, col := 0, rowBuf := [] } := by
        simp [next, herr, hhc]
      rw [e1] at h ⊢
      obtain ⟨h1, h2, h3, h4⟩ := rowLoop_true_inv _ h
      refine ⟨rfl, h1, ?_, h3, h4⟩
      rw [h2]
      exact herr

theorem next_eq_rowLoop (t : Reader) (herr : t.err = none) (hhc : hasCols t = false) :
    next t = rowLoop { t with row := t.row + 1, col := 0, rowBuf := [] } := by
  simp [next, herr, hhc]

theorem bytes_noMoreCols (t : Reader) (herr : t.err = none) (hrow : t.row ≠ 0)
    (hb : t.b = none) :
    (bytes t).1 = none ∧
    (bytes t).2.err = some (Err.colError "cannot read `bytes`" t.row (t.col + 1)
      t.rowBuf Cause.noMoreCols) := by
  have hnc : nextCol t = (Except.error Cause.noMoreCols, { t with col := t.col + 1 }) := by
    simp [nextCol, hrow, hb]
  constructor
  · simp [bytes, herr, hnc]
  · simp [bytes, herr, hnc, setColError]

/-- Claim C10: after Next successfully advances to an empty row (bare newline),
    HasCols is false and a following Next does not raise the unread-columns
    misuse error; yet one Bytes call on that row still succeeds, returning the
    empty column, and only a second call fails with the no-more-columns error
    (at column index 2, with the empty raw row recorded). -/
theorem c10_empty_row (tr : Reader)
    (herr : tr.err = none) (hnext : (next tr).1 = true)
    (hempty : (next tr).2.rowBuf = []) :
    hasCols (next tr).2 = false ∧
    isUnreadColsErr (next (next tr).2).2.err = false ∧
    (bytes (next tr).2).1 = some [] ∧
    (bytes (next tr).2).2.err = none ∧
    (bytes (bytes (next tr).2).2).1 = none ∧
    (bytes (bytes (next tr).2).2).2.err =
      some (Err.colError "cannot read `bytes`" (next tr).2.row 2 [] Cause.noMoreCols) := by
  obtain ⟨_, hb, herr1, hrow1, hcol1⟩ := next_true_state tr hnext
  rw [hempty] at hb
  have hrow0 : (next tr).2.row ≠ 0 := by rw [hrow1]; omega
  have hhc : hasCols (next tr).2 = false := by
    simp [hasCols, hempty]
  have hnc : nextCol (next tr).2 =
      (Except.ok [], { (next tr).2 with col := (next tr).2.col + 1, b := none }) := by
    simp [nextCol, hrow0, hb, indexByte]
  have hby : bytes (next tr).2 =
      (some [], { (next tr).2 with col := (next tr).2.col + 1, b := none }) :=
    bytes_ok_of _ _ _ herr1 hnc (by simp)
  have herr2 : (bytes (next tr).2).2.err = none := by
    rw [hby]
    exact herr1
  have hrow2 : (bytes (next tr).2).2.row ≠ 0 := by
    rw [hby]
    exact hrow0
  have hb2 : (bytes (next tr).2).2.b = none := by
    rw [hby]
  obtain ⟨hq1, hq2⟩ := bytes_noMoreCols (bytes (next tr).2).2 herr2 hrow2 hb2
  refine ⟨hhc, ?_, by rw [hby], herr2, hq1, ?_⟩
  · rw [next_eq_rowLoop (next tr).2 herr1 hhc]
    exact rowLoop_no_unread _ herr1
  · rw [hq2]
    have hr : (bytes (next tr).2).2.row = (next tr).2.row := by rw [hby]
    have hc : (bytes (next tr).2).2.col = 1 := by
      rw [hby]
      show (next tr).2.col + 1 = 1
      rw [hcol1]
    have hrb : (bytes (next tr).2).2.rowBuf = [] := by
      rw [hby]
      exact hempty
    rw [hr, hc, hrb]

/-- Witness for C10: the stream "\na\n", whose first row is empty. -/
theorem c10_empty_row_witness :
    ((newCustom 44 [[10, 97, 10]]).err = none ∧
     (next (newCustom 44 [[10, 97, 10]])).1 = true ∧
     (next (newCustom 44 [[10, 97, 10]])).2.rowBuf = []) ∧
    (hasCols (next (newCustom 44 [[10, 97, 10]])).2 = false ∧
     isUnreadColsErr (next (next (newCustom 44 [[10, 97, 10]])).2).2.err = false ∧
     (bytes (next (newCustom 44 [[10, 97, 10]])).2).1 = some [] ∧
     (bytes (next (newCustom 44 [[10, 97, 10]])).2).2.err = none ∧
     (bytes (bytes (next (newCustom 44 [[10, 97, 10]])).2).2).1 = none ∧
     (bytes (bytes (next (newCustom 44 [[10, 97, 10]])).2).2).2.err =
       some (Err.colError "cannot read `bytes`"
         (next (newCustom 44 [[10, 97, 10]])).2.row 2 [] Cause.noMoreCols)) := by
  have h1 : (next (newCustom 44 [[10, 97, 10]])).1 = true := by
    simp [next, hasCols, newCustom, resetReader, rowLoop, indexByte]
  have h2 : (next (newCustom 44 [[10, 97, 10]])).2.rowBuf = [] := by
    simp [next, hasCols, newCustom, resetReader, rowLoop, indexByte]
  exact ⟨⟨rfl, h1, h2⟩, c10_empty_row (newCustom 44 [[10, 97, 10]]) rfl h1 h2⟩
